import Mathlib

/-!
Verification of the Wwise-MCP transport and execution core.

This file gives a shallow embedding, in Lean, of the parts of the
repository exercised by the spec's testable properties:

* `app/scripts/wwise_mcp.py`: the `$var` resolver (`_resolve`,
  `_extract_attr`), the static command table keys (`COMMANDS`), the
  mutating-verb set (`PLAN_MODIFYING_COMMANDS`), the plan runner
  (`_run_one`, `_run_plan_sync`) and `execute_plan`.
* `app/scripts/wwise_session.py`: the timed priority queue (`_TimedPQ`),
  the subscription event buffer and its drain
  (`WaapiDispatcher._run` subscribe branch, `get_subscription_events`),
  and the guard sequence of `waapi_call` together with
  `WaapiDispatcher.enqueue`.

Python values flowing through plans are modelled by the JSON-like type
`Val`; Python dicts by association lists with first-match lookup and
in-place update; monotonic clock readings by integers (the claims only
use ordering and equality of times); exceptions by `Except`.  The
underlying WAAPI command functions are external effects, so the plan
runner is parameterised by an oracle `ex : Nat -> Except Err Val` giving
the outcome of the n-th command invocation; the list of invocations
actually issued is recorded in a trace.  Threads, blocking waits and the
condition-variable timing of `get_next_due` are elided: only the order
and content of observable operations is modelled.
-/

namespace WwiseMCP

/-- JSON-like values: the payloads of plan arguments, command results and
subscription events.  Mirrors the Python value universe used by the plan
runner (None, bool, int, str, list, dict). -/
inductive Val where
  | vnull : Val
  | vbool : Bool → Val
  | vint : Int → Val
  | vstr : String → Val
  | vlist : List Val → Val
  | vdict : List (String × Val) → Val

/-- First-match lookup in an association list; models Python dict read. -/
def lookupS : List (String × Val) → String → Option Val
  | [], _ => none
  | (k, v) :: rest, key => if k = key then some v else lookupS rest key

/-- Update of an association list: replace the first binding of `key`, or
append a new one; models Python dict assignment `d[key] = v`. -/
def setKey : List (String × Val) → String → Val → List (String × Val)
  | [], key, v => [(key, v)]
  | (k, w) :: rest, key, v =>
      if k = key then (k, v) :: rest else (k, w) :: setKey rest key v

/-- Errors raised inside plan execution.  `unknownCommand` models the
`ValueError` of `_run_one`; `varNotFound` the `KeyError` of `_resolve`;
`attributeError` the `getattr` failure of `_extract_attr` on a scalar;
`callFailed` stands for any exception raised by the underlying command
function itself (injected through the oracle). -/
inductive Err where
  | unknownCommand : String → Err
  | varNotFound : String → Err
  | attributeError : String → Err
  | callFailed : Nat → Err
deriving DecidableEq

/-- Split a character list at the first dot; helper for `splitVar`. -/
def splitDot : List Char → List Char × Option (List Char)
  | [] => ([], none)
  | c :: rest =>
      if c = '.' then ([], some rest)
      else
        let p := splitDot rest
        (c :: p.1, p.2)

/-- Split a variable body on the first dot, as Python
`val[1:].split(".", 1)`: returns the key and the optional field tail.
(Implemented over the character list so that it evaluates by kernel
reduction.) -/
def splitVar (t : List Char) : String × Option String :=
  let p := splitDot t
  (String.mk p.1, p.2.map String.mk)

/-- Embedding of `_extract_attr(obj, attr)`: on a list, project `attr`
out of every dict entry that has it; on a dict, `obj.get(attr)` (None
when absent); on anything else Python falls back to `getattr`, which
raises for the value shapes a plan can produce. -/
def extract_attr : Val → String → Except Err Val
  | .vlist ds, attr =>
      .ok (.vlist (ds.filterMap (fun d =>
        match d with
        | .vdict kvs => lookupS kvs attr
        | _ => none)))
  | .vdict kvs, attr => .ok ((lookupS kvs attr).getD .vnull)
  | _, attr => .error (.attributeError attr)

mutual

/-- Embedding of `_resolve(val, store)`: a string starting with `$` is a
variable reference looked up in the per-plan store (with an optional
one-level `.field` access); lists and dicts are resolved recursively;
all other values pass through. -/
def resolve (store : List (String × Val)) : Val → Except Err Val
  | .vstr s =>
      match s.data with
      | [] => .ok (.vstr s)
      | c :: t =>
        if c = '$' then
          match splitVar t with
          | (key, field) =>
            match lookupS store key with
            | none => .error (.varNotFound key)
            | some obj =>
              match field with
              | none => .ok obj
              | some f => extract_attr obj f
        else .ok (.vstr s)
  | .vlist xs =>
      match resolveList store xs with
      | .ok ys => .ok (.vlist ys)
      | .error e => .error e
  | .vdict kvs =>
      match resolveKvs store kvs with
      | .ok kvs2 => .ok (.vdict kvs2)
      | .error e => .error e
  | .vnull => .ok .vnull
  | .vbool b => .ok (.vbool b)
  | .vint n => .ok (.vint n)

/-- Resolve every element of a list, left to right, stopping at the
first failure (Python list comprehension semantics). -/
def resolveList (store : List (String × Val)) : List Val → Except Err (List Val)
  | [] => .ok []
  | v :: rest =>
      match resolve store v with
      | .error e => .error e
      | .ok v2 =>
        match resolveList store rest with
        | .error e => .error e
        | .ok rest2 => .ok (v2 :: rest2)

/-- Resolve every value of a key-value list, left to right (Python dict
comprehension semantics); keys are kept unchanged. -/
def resolveKvs (store : List (String × Val)) :
    List (String × Val) → Except Err (List (String × Val))
  | [] => .ok []
  | (k, v) :: rest =>
      match resolve store v with
      | .error e => .error e
      | .ok v2 =>
        match resolveKvs store rest with
        | .error e => .error e
        | .ok rest2 => .ok ((k, v2) :: rest2)

end

/-- Keys of the static `COMMANDS` table of `wwise_mcp.py` (the verb
registry).  Only the key set matters to the embedded runner: the command
functions themselves are external effects represented by the oracle. -/
def COMMANDS_keys : List String := [
  "connect_to_wwise", "resolve_all_path_relationships_in", "create_objects", "create_events",
  "create_game_objects", "create_rtpcs", "create_switch_groups", "create_switches",
  "create_state_groups", "create_states", "move_object_by_path", "rename_objects",
  "import_audio_files", "list_all_event_names", "list_all_rtpc_names", "list_all_switchgroups_and_switches",
  "list_all_stategroups_and_states", "list_all_game_objects_in_wwise", "post_event", "set_rtpc",
  "set_state", "set_switch", "move_game_obj", "stop_all_sounds",
  "include_in_soundbank", "generate_soundbanks", "get_project_info", "get_all_audio_files_at_path_on_file_explorer",
  "set_object_reference", "set_object_property", "retrieve_selected_objs", "unregister_gameobject",
  "toggle_layout", "get_all_property_name_and_valid_value_types", "soundengine_get_state", "soundengine_get_switch",
  "soundengine_load_bank", "soundengine_post_msg_monitor", "soundengine_post_trigger", "soundengine_reset_rtpc_value",
  "soundengine_seek_on_event", "soundengine_set_game_object_aux_send_values", "soundengine_set_game_object_output_bus_volume", "soundengine_set_listener_spatialization",
  "soundengine_set_multiple_positions", "soundengine_set_object_obstruction_and_occlusion", "soundengine_set_scaling_factor", "soundengine_stop_playing_id",
  "soundengine_unload_bank", "console_project_close", "console_project_create", "console_project_open",
  "get_info", "core_ping", "audio_convert", "audio_import_tab_delimited",
  "audio_mute", "audio_reset_mute", "audio_reset_solo", "audio_set_conversion_plugin",
  "audio_solo", "audio_source_peaks_get_min_max_peaks_in_region", "audio_source_peaks_get_min_max_peaks_in_trimmed_region", "blend_container_add_assignment",
  "blend_container_add_track", "blend_container_get_assignments", "blend_container_remove_assignment", "switch_container_add_assignment",
  "switch_container_get_assignments", "switch_container_remove_assignment", "execute_lua_script", "log_add_item",
  "log_clear", "log_get", "media_pool_get", "media_pool_get_fields",
  "object_copy", "object_delete", "object_diff", "object_get_attenuation_curve",
  "object_get_property_and_reference_names", "object_get_property_info", "object_get_property_names", "object_get_types",
  "object_is_linked", "object_is_property_enabled", "object_paste_properties", "object_set",
  "object_set_attenuation_curve", "object_set_linked", "object_set_notes", "object_set_randomizer",
  "object_set_state_groups", "object_set_state_properties", "plugin_get_list", "plugin_get_properties",
  "plugin_get_property", "profiler_enable_profiler_data", "profiler_get_audio_objects", "profiler_get_busses",
  "profiler_get_cpu_usage", "profiler_get_cursor_time", "profiler_get_loaded_media", "profiler_get_meters",
  "profiler_get_performance_monitor", "profiler_get_rtpcs", "profiler_get_streamed_media", "profiler_get_voice_contributions",
  "profiler_get_voices", "profiler_register_meter", "profiler_save_capture", "profiler_start_capture",
  "profiler_stop_capture", "profiler_unregister_meter", "project_save", "remote_connect",
  "remote_disconnect", "remote_get_available_consoles", "remote_get_connection_status", "sound_set_active_source",
  "soundbank_get_inclusions", "soundbank_process_definition_files", "soundbank_convert_external_sources", "source_control_add",
  "source_control_check_out", "source_control_commit", "source_control_delete", "source_control_get_source_files",
  "source_control_get_status", "source_control_move", "source_control_revert", "source_control_set_provider",
  "transport_create", "transport_destroy", "transport_execute_action", "transport_get_list",
  "transport_get_state", "transport_prepare", "undo_begin_group", "undo_cancel_group",
  "undo_end_group", "undo_redo", "undo_undo", "work_unit_load",
  "work_unit_unload", "debug_enable_asserts", "debug_enable_automation_mode", "debug_generate_tone_wav",
  "debug_get_wal_tree", "debug_restart_waapi_servers", "debug_test_assert", "debug_test_crash",
  "debug_validate_call", "ui_bring_to_foreground", "ui_capture_screen", "ui_commands_execute",
  "ui_commands_get_commands", "ui_commands_register", "ui_commands_unregister", "ui_get_selected_files",
  "ui_layout_close_view", "ui_layout_dock_view", "ui_layout_get_current_layout_name", "ui_layout_get_element_rectangle",
  "ui_layout_get_layout", "ui_layout_get_layout_names", "ui_layout_get_or_create_view", "ui_layout_get_view_instances",
  "ui_layout_get_view_types", "ui_layout_move_splitter", "ui_layout_remove_layout", "ui_layout_reset_layouts",
  "ui_layout_set_layout", "ui_layout_undock_view", "ui_project_close", "ui_project_create",
  "ui_project_open", "waapi_get_functions", "waapi_get_schema", "waapi_schema_get_args_spec",
  "waapi_validate_args", "waapi_get_topics", "waapi_subscribe", "waapi_unsubscribe",
  "waapi_subscription_events", "waapi_list_topic_uris", "subscribe_topic_audio_imported", "subscribe_topic_log_item_added",
  "subscribe_topic_object_attenuation_curve_changed", "subscribe_topic_object_attenuation_curve_link_changed", "subscribe_topic_object_child_added", "subscribe_topic_object_child_removed",
  "subscribe_topic_object_created", "subscribe_topic_object_curve_changed", "subscribe_topic_object_name_changed", "subscribe_topic_object_notes_changed",
  "subscribe_topic_object_post_deleted", "subscribe_topic_object_pre_deleted", "subscribe_topic_object_property_changed", "subscribe_topic_object_reference_changed",
  "subscribe_topic_object_structure_changed", "subscribe_topic_profiler_capture_log_item_added", "subscribe_topic_profiler_game_object_registered", "subscribe_topic_profiler_game_object_reset",
  "subscribe_topic_profiler_game_object_unregistered", "subscribe_topic_profiler_state_changed", "subscribe_topic_profiler_switch_changed", "subscribe_topic_project_loaded",
  "subscribe_topic_project_post_closed", "subscribe_topic_project_pre_closed", "subscribe_topic_project_saved", "subscribe_topic_soundbank_generated",
  "subscribe_topic_soundbank_generation_done", "subscribe_topic_switch_container_assignment_added", "subscribe_topic_switch_container_assignment_removed", "subscribe_topic_transport_state_changed",
  "subscribe_topic_debug_assert_failed", "subscribe_topic_ui_commands_executed", "subscribe_topic_ui_selection_changed"]

/-- Embedding of the frozenset `PLAN_MODIFYING_COMMANDS`: the verbs that
trigger the undo-group wrap around a plan. -/
def PLAN_MODIFYING_COMMANDS : List String := [
  "create_objects", "create_events", "create_game_objects", "create_rtpcs",
  "create_switch_groups", "create_switches", "create_state_groups", "create_states",
  "move_object_by_path", "rename_objects", "import_audio_files", "include_in_soundbank",
  "generate_soundbanks", "set_object_reference", "set_object_property", "blend_container_add_assignment",
  "blend_container_add_track", "blend_container_remove_assignment", "switch_container_add_assignment", "switch_container_remove_assignment",
  "execute_lua_script", "log_add_item", "log_clear", "object_copy",
  "object_delete", "object_paste_properties", "object_set", "object_set_attenuation_curve",
  "object_set_linked", "object_set_notes", "object_set_randomizer", "object_set_state_groups",
  "object_set_state_properties", "project_save", "sound_set_active_source", "soundbank_process_definition_files",
  "soundbank_convert_external_sources", "source_control_add", "source_control_check_out", "source_control_commit",
  "source_control_delete", "source_control_move", "source_control_revert", "source_control_set_provider",
  "transport_create", "transport_destroy", "transport_execute_action", "transport_prepare",
  "transport_use_originals", "work_unit_load", "work_unit_unload", "console_project_close",
  "console_project_create", "console_project_open", "audio_convert", "audio_import_tab_delimited",
  "audio_mute", "audio_reset_mute", "audio_reset_solo", "audio_set_conversion_plugin",
  "audio_solo", "ui_layout_close_view", "ui_layout_dock_view", "ui_layout_remove_layout",
  "ui_layout_reset_layouts", "ui_layout_set_layout", "ui_layout_switch_layout", "ui_layout_undock_view",
  "ui_project_close", "ui_project_create", "ui_project_open", "debug_enable_asserts",
  "debug_enable_automation_mode", "debug_generate_tone_wav", "debug_restart_waapi_servers", "debug_test_assert",
  "debug_test_crash"]

/-- Names of the three undo bracket commands as they appear in the log. -/
def undoVerbs : List String := ["undo_begin_group", "undo_end_group", "undo_cancel_group"]

/-- One entry of the plan log, as appended by `_run_plan_sync`:
`{"command": ..., "kwargs": ..., "result": ...}` plus the optional
`"error"` (stored here as the raised error value rather than `str(e)`)
and the optional `"reason"` used by the cancel-after-end-failure entry. -/
structure LogEntry where
  command : String
  kwargs : List (String × Val)
  result : Option Val
  error : Option Err := none
  reason : Option String := none

/-- A plan step, already past `_parse_call`: either the legacy string
form `"verb(arg, kw=val)"` (carrying positional and keyword literals) or
the structured form `{command, args, save_as?}`.  Parsing itself
(`ast.parse`) is elided; steps enter the runner in parsed form. -/
inductive Step where
  | parsed : String → List Val → List (String × Val) → Step
  | structured : String → List (String × Val) → Option String → Step

/-- The verb of a step, as collected by `_plan_verbs`. -/
def Step.verb : Step → String
  | .parsed v _ _ => v
  | .structured c _ _ => c

/-- Embedding of `any(v in PLAN_MODIFYING_COMMANDS for v in _plan_verbs(plan))`. -/
def needUndo (plan : List Step) : Bool :=
  plan.any (fun st => PLAN_MODIFYING_COMMANDS.contains st.verb)

/-- Running state of one `_run_plan_sync` invocation: the per-plan
variable store, the accumulated log, the trace of command invocations
actually issued (in order), and the oracle cursor `k` (the index of the
next command invocation). -/
structure RState where
  store : List (String × Val)
  log : List LogEntry
  trace : List String
  k : Nat

/-- Embedding of `_run_one(verb, args, kwargs, save_as)`: reject unknown
verbs before invoking anything; otherwise invoke the command function
(the oracle), record the invocation in the trace, and on success bind
`last` and the optional truthy `save_as` name to the result.  The
`inspect.signature(...).bind_partial` arity check is elided: an arity
mismatch is one more way for the invocation to fail, which the oracle
already covers. -/
def runOne (ex : Nat → Except Err Val) (verb : String) (save_as : Option String)
    (s : RState) : Except Err Val × RState :=
  if verb ∈ COMMANDS_keys then
    match ex s.k with
    | .ok v =>
        let st1 := setKey s.store "last" v
        let st2 := match save_as with
          | some n => if n = "" then st1 else setKey st1 n v
          | none => st1
        (.ok v, { s with store := st2, k := s.k + 1, trace := s.trace ++ [verb] })
    | .error e => (.error e, { s with k := s.k + 1, trace := s.trace ++ [verb] })
  else (.error (.unknownCommand verb), s)

/-- Per-step preparation in the loop of `_run_plan_sync`: resolve the
step's arguments against the store, yielding the verb, resolved
positional and keyword arguments and the `save_as` annotation.  For a
string step both tuples are resolved; for a structured step the `args`
mapping becomes the keyword arguments. -/
def resolveStep (store : List (String × Val)) :
    Step → Except Err (String × List Val × List (String × Val) × Option String)
  | .parsed verb args kwargs =>
      match resolveList store args with
      | .error e => .error e
      | .ok args2 =>
        match resolveKvs store kwargs with
        | .error e => .error e
        | .ok kwargs2 => .ok (verb, args2, kwargs2, none)
  | .structured cmd args save_as =>
      match resolveKvs store args with
      | .error e => .error e
      | .ok kwargs2 => .ok (cmd, [], kwargs2, save_as)

/-- The step loop of `_run_plan_sync` (step 2 of the execution): resolve,
run, append `{command, kwargs, result}` to the log, continue; the first
exception stops the loop and is reported to the caller. -/
def runSteps (ex : Nat → Except Err Val) (s : RState) :
    List Step → Except Err Unit × RState
  | [] => (.ok (), s)
  | step :: rest =>
      match resolveStep s.store step with
      | .error e => (.error e, s)
      | .ok (verb, _args2, kwargs2, save_as) =>
        match runOne ex verb save_as s with
        | (.error e, s1) => (.error e, s1)
        | (.ok v, s1) =>
            runSteps ex
              { s1 with log := s1.log ++ [{ command := verb, kwargs := kwargs2, result := some v }] }
              rest

/-- Result of a whole `_run_plan_sync` invocation: the log (as built,
also on the failing paths, where Python raises with the list still
local), the invocation trace, and whether the function returned
normally (`.ok`) or raised (`.error`). -/
structure RunOut where
  log : List LogEntry
  trace : List String
  result : Except Err Unit

/-- Log entry helpers matching the literal dicts in `_run_plan_sync`. -/
def connectOkEntry (v : Val) : LogEntry :=
  { command := "connect_to_wwise", kwargs := [], result := some v }

/-- Entry appended when the initial `connect_to_wwise` raises. -/
def connectErrEntry (e : Err) : LogEntry :=
  { command := "connect_to_wwise", kwargs := [], result := none, error := some e }

/-- Entry appended after a successful `undo_begin_group`. -/
def beginOkEntry (v : Val) : LogEntry :=
  { command := "undo_begin_group", kwargs := [], result := some v }

/-- Entry appended when `undo_begin_group` raises. -/
def beginErrEntry (e : Err) : LogEntry :=
  { command := "undo_begin_group", kwargs := [], result := none, error := some e }

/-- Entry appended after a successful `undo_end_group`. -/
def endOkEntry (v : Val) : LogEntry :=
  { command := "undo_end_group", kwargs := [], result := some v }

/-- Entry appended when `undo_end_group` raises. -/
def endErrEntry (e : Err) : LogEntry :=
  { command := "undo_end_group", kwargs := [], result := none, error := some e }

/-- Entry appended after a successful `undo_cancel_group` on the
step-failure path. -/
def cancelOkEntry (v : Val) : LogEntry :=
  { command := "undo_cancel_group", kwargs := [], result := some v }

/-- Entry appended when `undo_cancel_group` itself raises on the
step-failure path. -/
def cancelErrEntry (e : Err) : LogEntry :=
  { command := "undo_cancel_group", kwargs := [], result := none, error := some e }

/-- Entry appended by the best-effort cancel after `undo_end_group`
fails (its `result` is recorded as `None` with a `reason`). -/
def cancelReasonEntry : LogEntry :=
  { command := "undo_cancel_group", kwargs := [], result := none,
    reason := some "after undo_end_group failure" }

/-- Steps 2 and 3 of `_run_plan_sync`: run the user steps; on success
close the undo group when one was opened (attempting a best-effort
cancel if closing fails); on a step failure cancel the undo group when
one was opened and re-raise the original error. -/
def runPlanBody (ex : Nat → Except Err Val) (plan : List Step) (needU : Bool)
    (s : RState) : RunOut :=
  match runSteps ex s plan with
  | (.ok _, s3) =>
      if needU then
        match runOne ex "undo_end_group" none s3 with
        | (.ok v, s4) => ⟨s4.log ++ [endOkEntry v], s4.trace, .ok ()⟩
        | (.error e, s4) =>
          match runOne ex "undo_cancel_group" none s4 with
          | (.ok _, s5) =>
              ⟨s5.log ++ [cancelReasonEntry, endErrEntry e], s5.trace, .error e⟩
          | (.error _, s5) => ⟨s5.log ++ [endErrEntry e], s5.trace, .error e⟩
      else ⟨s3.log, s3.trace, .ok ()⟩
  | (.error e, s3) =>
      if needU then
        match runOne ex "undo_cancel_group" none s3 with
        | (.ok cv, s4) => ⟨s4.log ++ [cancelOkEntry cv], s4.trace, .error e⟩
        | (.error ce, s4) => ⟨s4.log ++ [cancelErrEntry ce], s4.trace, .error e⟩
      else ⟨s3.log, s3.trace, .error e⟩

/-- Step 1 of `_run_plan_sync`: when the plan contains a mutating verb,
open the undo group (aborting the plan if that fails), then run the body. -/
def runPlanAfterConnect (ex : Nat → Except Err Val) (plan : List Step)
    (s : RState) : RunOut :=
  if needUndo plan then
    match runOne ex "undo_begin_group" none s with
    | (.error e, s2) => ⟨s2.log ++ [beginErrEntry e], s2.trace, .error e⟩
    | (.ok v, s2) =>
        runPlanBody ex plan true { s2 with log := s2.log ++ [beginOkEntry v] }
  else runPlanBody ex plan false s

/-- Embedding of `_run_plan_sync(plan)`: connect first (aborting the
plan if that fails), then the undo bracket and the step loop. -/
def runPlanSync (ex : Nat → Except Err Val) (plan : List Step) : RunOut :=
  match runOne ex "connect_to_wwise" none ⟨[], [], [], 0⟩ with
  | (.error e, s1) => ⟨s1.log ++ [connectErrEntry e], s1.trace, .error e⟩
  | (.ok v, s1) =>
      runPlanAfterConnect ex plan { s1 with log := s1.log ++ [connectOkEntry v] }

/-- Embedding of the `execute_plan` tool: on normal return it reports
`steps_executed = len(log)` together with the log; when
`_run_plan_sync` raises, the RPC surfaces an error instead (`none`). -/
def executePlan (ex : Nat → Except Err Val) (plan : List Step) :
    Option (Nat × List LogEntry) :=
  let out := runPlanSync ex plan
  match out.result with
  | .ok _ => some (out.log.length, out.log)
  | .error _ => none

/-- Number of log entries recording an invocation of command `c`. -/
def countCmd (log : List LogEntry) (c : String) : Nat :=
  (log.filter (fun en => en.command == c)).length

/-- The sublist of log entries recording undo bracket commands. -/
def undoEntries (log : List LogEntry) : List LogEntry :=
  log.filter (fun en => undoVerbs.contains en.command)

/-! Timed priority queue (`_TimedPQ` of `wwise_session.py`).  The heap
list holds `(due_at, seq, req)` entries; `heapq` is Python stdlib, so it
is modelled by its contract: the list is a bag of entries, `heappush`
adds one, and reading `self._pq[0]` followed by `heappop` removes a
lexicographically least entry by `(due_at, seq)` (the `req` component is
never reached by tuple comparison because `seq` values are unique).
`due_at` times are integers; request payloads are a type parameter. -/

/-- One queued request: the tuple `(due_at, seq, req)` pushed by `put`. -/
structure PQEntry (α : Type) where
  due : Int
  seq : Nat
  req : α

/-- State of a `_TimedPQ`: the heap contents, the `_seq` tie-breaker
counter, and the configured `_max_size`. -/
structure TimedPQ (α : Type) where
  pq : List (PQEntry α)
  seq : Nat
  maxSize : Nat

/-- A fresh `_TimedPQ(max_size)`. -/
def TimedPQ.empty (α : Type) (max : Nat) : TimedPQ α := ⟨[], 0, max⟩

/-- Payload of `WaapiQueueFullError(queue_size=..., max_size=...)`. -/
structure QueueFullErr where
  queue_size : Nat
  max_size : Nat
deriving DecidableEq

/-- Embedding of `_TimedPQ.put`: under the mutex, capture the current
size, raise `WaapiQueueFullError` when the queue is at (or beyond)
capacity without enqueueing, otherwise push the entry and bump `_seq`. -/
def TimedPQ.put (s : TimedPQ α) (due_at : Int) (req : α) :
    Except QueueFullErr (TimedPQ α) :=
  if s.pq.length ≥ s.maxSize then
    .error ⟨s.pq.length, s.maxSize⟩
  else
    .ok { s with pq := s.pq ++ [⟨due_at, s.seq, req⟩], seq := s.seq + 1 }

/-- The `put` as seen by a caller that catches `WaapiQueueFullError`:
a failed put leaves the queue untouched. -/
def TimedPQ.putCatch (s : TimedPQ α) (due_at : Int) (req : α) : TimedPQ α :=
  match s.put due_at req with
  | .ok s1 => s1
  | .error _ => s

/-- A sequence of `put` attempts, each failure caught. -/
def TimedPQ.putSeq (s : TimedPQ α) (ops : List (Int × α)) : TimedPQ α :=
  ops.foldl (fun acc op => acc.putCatch op.1 op.2) s

/-- Lexicographic strict order on `(due_at, seq)` keys. -/
def keyLt (a b : Int × Nat) : Prop :=
  a.1 < b.1 ∨ (a.1 = b.1 ∧ a.2 < b.2)

/-- Boolean lexicographic comparison used to locate the heap minimum. -/
def keyLeB (a b : PQEntry α) : Bool :=
  decide (a.due < b.due ∨ (a.due = b.due ∧ a.seq ≤ b.seq))

/-- Select a lexicographically least entry of the bag and return it with
the remaining entries; models reading `self._pq[0]` plus `heappop`. -/
def selectMin : List (PQEntry α) → Option (PQEntry α × List (PQEntry α))
  | [] => none
  | x :: xs =>
      match selectMin xs with
      | none => some (x, [])
      | some (m, rest) => if keyLeB x m then some (x, xs) else some (m, x :: rest)

/-- Embedding of a successful iteration of `_TimedPQ.get_next_due` at
monotonic time `now`: when the head exists and is due, pop and return
it; otherwise the consumer keeps waiting (the condition-variable sleep,
poll interval and stop flag are timing concerns and are elided). -/
def getNextDue (now : Int) (s : TimedPQ α) : Option (PQEntry α) × TimedPQ α :=
  match selectMin s.pq with
  | none => (none, s)
  | some (m, rest) => if m.due ≤ now then (some m, { s with pq := rest }) else (none, s)

/-- Repeatedly pop due requests at time `now`; the fuel bounds the
number of pops (the queue length suffices to drain it). -/
def drainAt (now : Int) : Nat → TimedPQ α → List (PQEntry α)
  | 0, _ => []
  | fuel + 1, s =>
      match getNextDue now s with
      | (some m, s1) => m :: drainAt now fuel s1
      | (none, _) => []

/-! Subscription event buffers (`WaapiDispatcher` of `wwise_session.py`).
A Python `queue.Queue(maxsize)` is modelled by its item list plus the
`maxsize` field; `maxsize <= 0` means infinite capacity, and
`put(..., block=False)` raises `Full` only when `0 < maxsize` and the
queue already holds `maxsize` items. -/

/-- A Python `queue.Queue`. -/
structure PyQueue where
  maxsize : Int
  items : List Val

/-- Non-blocking put: `q.put(v, block=False)`. -/
def PyQueue.putNowait (q : PyQueue) (v : Val) : Except Unit PyQueue :=
  if 0 < q.maxsize ∧ (q.items.length : Int) ≥ q.maxsize then .error ()
  else .ok { q with items := q.items ++ [v] }

/-- The event queue created by the subscribe branch of
`WaapiDispatcher._run`: literally `event_q = queue.Queue()`, i.e. with
the default `maxsize = 0`. -/
def subscribeEventQueue : PyQueue := ⟨0, []⟩

/-- Embedding of the `_on_event` callback registered by the subscribe
branch: `try: event_q.put(payload, block=False) except queue.Full: pass`.
It is a total function: a full buffer drops the event silently and no
exception escapes to the RPC callback thread. -/
def onEvent (q : PyQueue) (payload : Val) : PyQueue :=
  match q.putNowait payload with
  | .ok q2 => q2
  | .error _ => q

/-- First-match lookup in the subscription registry
(`self._subscriptions.get(subscription_id)`; the handler component of
the stored tuple plays no role here and is elided). -/
def lookupQ : List (String × PyQueue) → String → Option PyQueue
  | [], _ => none
  | (k, q) :: rest, key => if k = key then some q else lookupQ rest key

/-- Write-back of a mutated queue object into the registry (Python
mutates the shared `queue.Queue` in place). -/
def setQ : List (String × PyQueue) → String → PyQueue → List (String × PyQueue)
  | [], key, q => [(key, q)]
  | (k, w) :: rest, key, q =>
      if k = key then (k, q) :: rest else (k, w) :: setQ rest key q

/-- The drain loop of `get_subscription_events`: `while n < limit`
repeatedly `get_nowait()` until the queue is empty, collecting events in
order; returns the drained events and the remaining items. -/
def drainLoop : List Val → Int → List Val × List Val
  | [], _ => ([], [])
  | e :: rest, lim =>
      if lim ≤ 0 then ([], e :: rest)
      else
        let p := drainLoop rest (lim - 1)
        (e :: p.1, p.2)

/-- Embedding of `WaapiDispatcher.get_subscription_events(subscription_id,
max_count, clear)`: unknown ids yield `[]`; otherwise up to
`max_count` events (default limit `1 <<< 31`) are taken with
`get_nowait`.  The `clear` parameter is received and — exactly as in the
source — never consulted: `get_nowait` removes the events it returns
regardless of `clear`. -/
def get_subscription_events (subs : List (String × PyQueue)) (sid : String)
    (max_count : Option Int) (clear : Bool) : List Val × List (String × PyQueue) :=
  match lookupQ subs sid with
  | none => ([], subs)
  | some q =>
      let limit : Int :=
        match max_count with
        | some m => m
        | none => 2 ^ 31
      let p := drainLoop q.items limit
      (p.1, setQ subs sid { q with items := p.2 })

/-! Guard sequence of `waapi_call` (`wwise_session.py`).  The module
globals captured under `_lock` are summarised in a state record:
`connected` stands for `_client is not None and _dispatcher is not None`.
Two clock readings appear: `nowCall` for the `time.monotonic()` taken in
`waapi_call` when computing `due_at`, and `nowEnq` for the one taken
inside `WaapiDispatcher.enqueue` when `due_at` is `None`.  The reply
wait and its timeout are elided: the modelled result is the request as
enqueued, or the error raised before enqueueing. -/

/-- Session-level state observed by one `waapi_call` invocation. -/
structure SessState where
  reconnecting : Bool
  connected : Bool
  dispatcherAlive : Bool
  onDispatcherThread : Bool
deriving DecidableEq

/-- Errors `waapi_call` can raise before (or instead of) enqueueing. -/
inductive CallErr where
  | valueErrNegativeDueIn : CallErr
  | valueErrReconnecting : CallErr
  | valueErrNotConnected : CallErr
  | valueErrDispatcherNotRunning : CallErr
  | runtimeErrDispatcherThread : CallErr
  | queueFull : Nat → Nat → CallErr
deriving DecidableEq

/-- The request record built by `WaapiDispatcher.enqueue` (args, options
and the reply queue object are elided; `wantReply` records whether a
reply queue was allocated). -/
structure EnqReq where
  due_at : Int
  uri : String
  wantReply : Bool
deriving DecidableEq

/-- The Python negativity test `due_in is not None and due_in < 0.0`. -/
def negDue : Option Int → Bool
  | some d => decide (d < 0)
  | none => false

/-- Embedding of `waapi_call(uri, args, options, due_in=..., wait=...)`
up to and including the construction of the request that
`dispatcher.enqueue` would push.  Guards appear in source order:
negative `due_in`, reconnecting, not connected, dispatcher not running,
then the dispatcher-thread re-entrancy check.  The scheduling line is
`due_at = (time.monotonic() + due_in) if due_in else None`, so a `0`
`due_in` is falsy and leaves `due_at` unset; `enqueue` then defaults
`due_at` to its own `time.monotonic()`. -/
def waapi_call (st : SessState) (nowCall nowEnq : Int) (uri : String)
    (due_in : Option Int) (wait : Bool) : Except CallErr EnqReq :=
  if negDue due_in then .error .valueErrNegativeDueIn
  else if st.reconnecting then .error .valueErrReconnecting
  else if !st.connected then .error .valueErrNotConnected
  else if !st.dispatcherAlive then .error .valueErrDispatcherNotRunning
  else if st.onDispatcherThread then .error .runtimeErrDispatcherThread
  else
    let due_at : Option Int :=
      match due_in with
      | some d => if d ≠ 0 then some (nowCall + d) else none
      | none => none
    .ok { due_at := due_at.getD nowEnq, uri := uri, wantReply := wait }

/-- `waapi_call` together with the `_TimedPQ.put` performed by
`WaapiDispatcher.enqueue`: returns the outcome and the queue afterwards,
making "no request is enqueued" directly observable. -/
def waapi_call_enqueue (st : SessState) (pq : TimedPQ EnqReq)
    (nowCall nowEnq : Int) (uri : String) (due_in : Option Int) (wait : Bool) :
    Except CallErr EnqReq × TimedPQ EnqReq :=
  match waapi_call st nowCall nowEnq uri due_in wait with
  | .error e => (.error e, pq)
  | .ok req =>
      match pq.put req.due_at req with
      | .ok pq2 => (.ok req, pq2)
      | .error f => (.error (.queueFull f.queue_size f.max_size), pq)

/-! Auxiliary lemmas about the store and log counting. -/

theorem lookupS_setKey : ∀ (l : List (String × Val)) (k k2 : String) (v : Val),
    lookupS (setKey l k v) k2 = if k2 = k then some v else lookupS l k2 := by
  intro l k
  induction l with
  | nil =>
      intro k2 v
      by_cases h : k = k2
      · simp [setKey, lookupS, h]
      · have h2 : ¬ k2 = k := fun hh => h hh.symm
        simp [setKey, lookupS, h, h2]
  | cons p rest ih =>
      intro k2 v
      obtain ⟨k1, w⟩ := p
      by_cases hk : k1 = k <;> by_cases h : k1 = k2
      · have hkk : k2 = k := h.symm.trans hk
        simp [setKey, lookupS, hk, h, hkk]
      · have hkk : ¬ k2 = k := fun hh => h (hk.trans hh.symm)
        have h2 : ¬ k = k2 := fun hh => h (hk.trans hh)
        simp [setKey, lookupS, hk, h, hkk, h2]
      · have hkk : ¬ k2 = k := fun hh => hk (h.trans hh)
        simp [setKey, lookupS, hk, h, hkk, ih]
      · simp [setKey, lookupS, hk, h, ih]

theorem countCmd_append (a b : List LogEntry) (c : String) :
    countCmd (a ++ b) c = countCmd a c + countCmd b c := by
  simp [countCmd, List.filter_append]

theorem countCmd_eq_zero (t : List LogEntry) (c : String)
    (h : ∀ en ∈ t, en.command ≠ c) : countCmd t c = 0 := by
  simp only [countCmd, List.length_eq_zero, List.filter_eq_nil_iff]
  intro en hen
  simpa using h en hen

/-! Structural lemmas about the plan runner. -/

theorem runSteps_nil (ex : Nat → Except Err Val) (s : RState) :
    runSteps ex s [] = (.ok (), s) := rfl

theorem runSteps_cons_resolve_err (ex : Nat → Except Err Val) (s : RState)
    (step : Step) (rest : List Step) (e : Err)
    (h : resolveStep s.store step = .error e) :
    runSteps ex s (step :: rest) = (.error e, s) := by
  simp only [runSteps, h]

theorem runSteps_cons_run_err (ex : Nat → Except Err Val) (s s1 : RState)
    (step : Step) (rest : List Step) (verb : String) (args2 : List Val)
    (kwargs2 : List (String × Val)) (sa : Option String) (e : Err)
    (hr : resolveStep s.store step = .ok (verb, args2, kwargs2, sa))
    (ho : runOne ex verb sa s = (.error e, s1)) :
    runSteps ex s (step :: rest) = (.error e, s1) := by
  simp only [runSteps, hr, ho]

theorem runSteps_cons_ok (ex : Nat → Except Err Val) (s s1 : RState)
    (step : Step) (rest : List Step) (verb : String) (args2 : List Val)
    (kwargs2 : List (String × Val)) (sa : Option String) (v : Val)
    (hr : resolveStep s.store step = .ok (verb, args2, kwargs2, sa))
    (ho : runOne ex verb sa s = (.ok v, s1)) :
    runSteps ex s (step :: rest) =
      runSteps ex
        { s1 with log := s1.log ++ [{ command := verb, kwargs := kwargs2, result := some v }] }
        rest := by
  simp only [runSteps, hr, ho]

theorem resolveStep_verb (store : List (String × Val)) (st : Step)
    (verb : String) (args2 : List Val) (kwargs2 : List (String × Val))
    (sa : Option String)
    (h : resolveStep store st = .ok (verb, args2, kwargs2, sa)) :
    verb = st.verb := by
  cases st with
  | parsed v a kw =>
      simp only [resolveStep] at h
      cases ha : resolveList store a with
      | error e => rw [ha] at h; exact absurd h (by simp)
      | ok a2 =>
          rw [ha] at h
          cases hk : resolveKvs store kw with
          | error e => rw [hk] at h; exact absurd h (by simp)
          | ok k2 =>
              rw [hk] at h
              simp only [Except.ok.injEq, Prod.mk.injEq] at h
              exact h.1.symm ▸ rfl
  | structured c a sa2 =>
      simp only [resolveStep] at h
      cases hk : resolveKvs store a with
      | error e => rw [hk] at h; exact absurd h (by simp)
      | ok k2 =>
          rw [hk] at h
          simp only [Except.ok.injEq, Prod.mk.injEq] at h
          exact h.1.symm ▸ rfl

theorem runOne_log (ex : Nat → Except Err Val) (verb : String)
    (sa : Option String) (s : RState) :
    (runOne ex verb sa s).2.log = s.log := by
  simp only [runOne]
  by_cases h : verb ∈ COMMANDS_keys
  · rw [if_pos h]
    cases ex s.k <;> simp
  · rw [if_neg h]

theorem runOne_ok_store_last (ex : Nat → Except Err Val) (verb : String)
    (sa : Option String) (s s2 : RState) (v : Val)
    (h : runOne ex verb sa s = (.ok v, s2)) :
    lookupS s2.store "last" = some v := by
  simp only [runOne] at h
  by_cases hm : verb ∈ COMMANDS_keys
  · rw [if_pos hm] at h
    cases hex : ex s.k with
    | error e => rw [hex] at h; exact absurd h (by simp)
    | ok w =>
        rw [hex] at h
        simp only [Prod.mk.injEq, Except.ok.injEq] at h
        obtain ⟨hv, hs⟩ := h
        subst hv
        rw [← hs]
        cases sa with
        | none => simp [lookupS_setKey]
        | some n =>
            simp only []
            split <;> simp [lookupS_setKey]
  · rw [if_neg hm] at h
    exact absurd h (by simp)

theorem runSteps_log_shape (ex : Nat → Except Err Val) :
    ∀ (steps : List Step) (s : RState), ∃ t,
      (runSteps ex s steps).2.log = s.log ++ t ∧
      ∀ en ∈ t, ∃ st ∈ steps, en.command = Step.verb st ∧ ∃ v, en.result = some v := by
  intro steps
  induction steps with
  | nil => intro s; exact ⟨[], by simp [runSteps_nil], by simp⟩
  | cons step rest ih =>
      intro s
      cases hr : resolveStep s.store step with
      | error e =>
          rw [runSteps_cons_resolve_err ex s step rest e hr]
          exact ⟨[], by simp, by simp⟩
      | ok q =>
          obtain ⟨verb, args2, kwargs2, sa⟩ := q
          cases ho : runOne ex verb sa s with
          | mk r s1 =>
            cases r with
            | error e =>
                rw [runSteps_cons_run_err ex s s1 step rest verb args2 kwargs2 sa e hr ho]
                have hl := runOne_log ex verb sa s
                rw [ho] at hl
                simp only at hl
                exact ⟨[], by simp [hl], by simp⟩
            | ok v =>
                rw [runSteps_cons_ok ex s s1 step rest verb args2 kwargs2 sa v hr ho]
                obtain ⟨t2, ht2, hmem⟩ :=
                  ih { s1 with log := s1.log ++ [{ command := verb, kwargs := kwargs2, result := some v }] }
                have hl := runOne_log ex verb sa s
                rw [ho] at hl
                simp only at hl
                refine ⟨({ command := verb, kwargs := kwargs2, result := some v } : LogEntry) :: t2, ?_, ?_⟩
                · rw [ht2]
                  simp [hl]
                · intro en hen
                  rw [List.mem_cons] at hen
                  rcases hen with hen | hen
                  · exact ⟨step, List.mem_cons_self step rest,
                      by rw [hen]; exact resolveStep_verb s.store step verb args2 kwargs2 sa hr,
                      v, by rw [hen]⟩
                  · obtain ⟨st, hst, hcmd, hres⟩ := hmem en hen
                    exact ⟨st, List.mem_cons_of_mem _ hst, hcmd, hres⟩

theorem runSteps_ok_log_length (ex : Nat → Except Err Val) :
    ∀ (steps : List Step) (s : RState),
      (runSteps ex s steps).1 = .ok () →
      (runSteps ex s steps).2.log.length = s.log.length + steps.length := by
  intro steps
  induction steps with
  | nil => intro s _; simp [runSteps_nil]
  | cons step rest ih =>
      intro s hok
      cases hr : resolveStep s.store step with
      | error e =>
          rw [runSteps_cons_resolve_err ex s step rest e hr] at hok
          exact absurd hok (by simp)
      | ok q =>
          obtain ⟨verb, args2, kwargs2, sa⟩ := q
          cases ho : runOne ex verb sa s with
          | mk r s1 =>
            cases r with
            | error e =>
                rw [runSteps_cons_run_err ex s s1 step rest verb args2 kwargs2 sa e hr ho] at hok
                exact absurd hok (by simp)
            | ok v =>
                rw [runSteps_cons_ok ex s s1 step rest verb args2 kwargs2 sa v hr ho] at hok ⊢
                have hl := runOne_log ex verb sa s
                rw [ho] at hl
                simp only at hl
                have := ih _ hok
                rw [this]
                simp [hl]
                omega

/-! Unfolding lemmas for the prelude (connect, undo begin) and the body
of `_run_plan_sync`. -/

/-- Runner state after a successful initial `connect_to_wwise` returning
`v0`: `last` is bound to the connect result, one log entry, one traced
invocation, oracle cursor 1. -/
def mkConnState (v0 : Val) : RState :=
  ⟨[("last", v0)], [connectOkEntry v0], ["connect_to_wwise"], 1⟩

/-- Runner state after a successful connect (result `v0`) followed by a
successful `undo_begin_group` (result `v1`). -/
def mkBeginState (v0 v1 : Val) : RState :=
  ⟨[("last", v1)], [connectOkEntry v0, beginOkEntry v1],
    ["connect_to_wwise", "undo_begin_group"], 2⟩

theorem connect_mem : ("connect_to_wwise" : String) ∈ COMMANDS_keys := by decide

theorem begin_mem : ("undo_begin_group" : String) ∈ COMMANDS_keys := by decide

theorem runPlanSync_conn_err (ex : Nat → Except Err Val) (plan : List Step)
    (e : Err) (h : ex 0 = .error e) :
    runPlanSync ex plan = ⟨[connectErrEntry e], ["connect_to_wwise"], .error e⟩ := by
  simp only [runPlanSync, runOne, if_pos connect_mem, h]
  rfl

theorem runPlanSync_conn (ex : Nat → Except Err Val) (plan : List Step)
    (v0 : Val) (h : ex 0 = .ok v0) :
    runPlanSync ex plan = runPlanAfterConnect ex plan (mkConnState v0) := by
  simp only [runPlanSync, runOne, if_pos connect_mem, h]
  rfl

theorem runPlanSync_begin_err (ex : Nat → Except Err Val) (plan : List Step)
    (v0 : Val) (e : Err) (hu : needUndo plan = true)
    (h0 : ex 0 = .ok v0) (h1 : ex 1 = .error e) :
    runPlanSync ex plan =
      ⟨[connectOkEntry v0, beginErrEntry e],
        ["connect_to_wwise", "undo_begin_group"], .error e⟩ := by
  rw [runPlanSync_conn ex plan v0 h0]
  simp only [runPlanAfterConnect, hu, if_pos, runOne, if_pos begin_mem, mkConnState, h1]
  rfl

theorem runPlanSync_begin (ex : Nat → Except Err Val) (plan : List Step)
    (v0 v1 : Val) (hu : needUndo plan = true)
    (h0 : ex 0 = .ok v0) (h1 : ex 1 = .ok v1) :
    runPlanSync ex plan = runPlanBody ex plan true (mkBeginState v0 v1) := by
  rw [runPlanSync_conn ex plan v0 h0]
  simp only [runPlanAfterConnect, hu, if_pos, runOne, if_pos begin_mem, mkConnState, h1]
  simp [setKey, mkBeginState]

theorem runPlanBody_ok_noU (ex : Nat → Except Err Val) (plan : List Step)
    (s s3 : RState) (u : Unit) (h : runSteps ex s plan = (.ok u, s3)) :
    runPlanBody ex plan false s = ⟨s3.log, s3.trace, .ok ()⟩ := by
  simp only [runPlanBody, h]
  rfl

theorem runPlanBody_err_noU (ex : Nat → Except Err Val) (plan : List Step)
    (s s3 : RState) (e : Err) (h : runSteps ex s plan = (.error e, s3)) :
    runPlanBody ex plan false s = ⟨s3.log, s3.trace, .error e⟩ := by
  simp only [runPlanBody, h]
  rfl

theorem runPlanBody_ok_end_ok (ex : Nat → Except Err Val) (plan : List Step)
    (s s3 s4 : RState) (u : Unit) (v : Val)
    (h : runSteps ex s plan = (.ok u, s3))
    (he : runOne ex "undo_end_group" none s3 = (.ok v, s4)) :
    runPlanBody ex plan true s = ⟨s4.log ++ [endOkEntry v], s4.trace, .ok ()⟩ := by
  simp only [runPlanBody, h, he]
  rfl

theorem runPlanBody_ok_end_err_cancel_ok (ex : Nat → Except Err Val)
    (plan : List Step) (s s3 s4 s5 : RState) (u : Unit) (e : Err) (cv : Val)
    (h : runSteps ex s plan = (.ok u, s3))
    (he : runOne ex "undo_end_group" none s3 = (.error e, s4))
    (hc : runOne ex "undo_cancel_group" none s4 = (.ok cv, s5)) :
    runPlanBody ex plan true s =
      ⟨s5.log ++ [cancelReasonEntry, endErrEntry e], s5.trace, .error e⟩ := by
  simp only [runPlanBody, h, he, hc]
  rfl

theorem runPlanBody_ok_end_err_cancel_err (ex : Nat → Except Err Val)
    (plan : List Step) (s s3 s4 s5 : RState) (u : Unit) (e ce : Err)
    (h : runSteps ex s plan = (.ok u, s3))
    (he : runOne ex "undo_end_group" none s3 = (.error e, s4))
    (hc : runOne ex "undo_cancel_group" none s4 = (.error ce, s5)) :
    runPlanBody ex plan true s = ⟨s5.log ++ [endErrEntry e], s5.trace, .error e⟩ := by
  simp only [runPlanBody, h, he, hc]
  rfl

theorem runPlanBody_err_cancel_ok (ex : Nat → Except Err Val) (plan : List Step)
    (s s3 s4 : RState) (e : Err) (cv : Val)
    (h : runSteps ex s plan = (.error e, s3))
    (hc : runOne ex "undo_cancel_group" none s3 = (.ok cv, s4)) :
    runPlanBody ex plan true s = ⟨s4.log ++ [cancelOkEntry cv], s4.trace, .error e⟩ := by
  simp only [runPlanBody, h, hc]
  rfl

theorem runPlanBody_err_cancel_err (ex : Nat → Except Err Val) (plan : List Step)
    (s s3 s4 : RState) (e ce : Err)
    (h : runSteps ex s plan = (.error e, s3))
    (hc : runOne ex "undo_cancel_group" none s3 = (.error ce, s4)) :
    runPlanBody ex plan true s = ⟨s4.log ++ [cancelErrEntry ce], s4.trace, .error e⟩ := by
  simp only [runPlanBody, h, hc]
  rfl

theorem countCmd_cons (en : LogEntry) (t : List LogEntry) (c : String) :
    countCmd (en :: t) c = (if en.command = c then 1 else 0) + countCmd t c := by
  simp only [countCmd, List.filter_cons]
  by_cases h : en.command = c
  · simp [h, Nat.add_comm]
  · simp [h]

theorem countCmd_nil (c : String) : countCmd [] c = 0 := rfl

theorem runPlanAfterConnect_noU (ex : Nat → Except Err Val) (plan : List Step)
    (s : RState) (hu : needUndo plan = false) :
    runPlanAfterConnect ex plan s = runPlanBody ex plan false s := by
  simp only [runPlanAfterConnect, hu]
  rfl

theorem contains_iff_mem_undoVerbs (c : String) :
    undoVerbs.contains c = true ↔ c ∈ undoVerbs := by
  simp

theorem undoEntries_cons (en : LogEntry) (t : List LogEntry) :
    undoEntries (en :: t) =
      if undoVerbs.contains en.command then en :: undoEntries t else undoEntries t := by
  simp only [undoEntries, List.filter_cons]

/-- C1 (amended).  For plans none of whose steps themselves invoke one of
the undo bracket verbs: a plan with no mutating verb yields a log with no
undo entries; a plan with a mutating verb that runs to completion yields
exactly one `undo_begin_group` and one `undo_end_group` entry and no
cancel; and a plan with a mutating verb whose connect and begin succeed
but whose step loop fails yields exactly one `undo_begin_group` and one
`undo_cancel_group` entry and no end.  (The restriction on explicit
undo verbs is forced by `c1_counterexample`: `undo_begin_group` is a
registered command and is absent from `PLAN_MODIFYING_COMMANDS`, so a
plan may invoke it as an ordinary step.) -/
theorem c1_theorem (ex : Nat → Except Err Val) (plan : List Step)
    (hclean : ∀ st ∈ plan, Step.verb st ∉ undoVerbs) :
    (needUndo plan = false → undoEntries (runPlanSync ex plan).log = []) ∧
    (needUndo plan = true → (runPlanSync ex plan).result = .ok () →
      countCmd (runPlanSync ex plan).log "undo_begin_group" = 1 ∧
      countCmd (runPlanSync ex plan).log "undo_end_group" = 1 ∧
      countCmd (runPlanSync ex plan).log "undo_cancel_group" = 0) ∧
    (needUndo plan = true → ∀ v0 v1 e, ex 0 = .ok v0 → ex 1 = .ok v1 →
      (runSteps ex (mkBeginState v0 v1) plan).1 = .error e →
      countCmd (runPlanSync ex plan).log "undo_begin_group" = 1 ∧
      countCmd (runPlanSync ex plan).log "undo_cancel_group" = 1 ∧
      countCmd (runPlanSync ex plan).log "undo_end_group" = 0) := by
  have tcount : ∀ (t : List LogEntry),
      (∀ en ∈ t, ∃ st ∈ plan, en.command = Step.verb st ∧ ∃ v, en.result = some v) →
      ∀ c ∈ undoVerbs, countCmd t c = 0 := by
    intro t ht c hc
    apply countCmd_eq_zero
    intro en hen
    obtain ⟨st, hst, hcmd, _⟩ := ht en hen
    rw [hcmd]
    intro hcc
    exact hclean st hst (hcc ▸ hc)
  have tnone : ∀ (t : List LogEntry),
      (∀ en ∈ t, ∃ st ∈ plan, en.command = Step.verb st ∧ ∃ v, en.result = some v) →
      undoEntries t = [] := by
    intro t ht
    simp only [undoEntries, List.filter_eq_nil_iff]
    intro en hen
    obtain ⟨st, hst, hcmd, _⟩ := ht en hen
    rw [hcmd]
    intro hcc
    exact hclean st hst ((contains_iff_mem_undoVerbs _).mp hcc)
  refine ⟨?_, ?_, ?_⟩
  · -- no mutating verb: no undo entries at all
    intro hu
    cases hex0 : ex 0 with
    | error e =>
        rw [runPlanSync_conn_err ex plan e hex0]
        rfl
    | ok v0 =>
        rw [runPlanSync_conn ex plan v0 hex0,
          runPlanAfterConnect_noU ex plan _ hu]
        cases hrs : runSteps ex (mkConnState v0) plan with
        | mk r s3 =>
          obtain ⟨t, ht, hmem⟩ := runSteps_log_shape ex plan (mkConnState v0)
          rw [hrs] at ht
          simp only at ht
          have hsplit : undoEntries s3.log = [] := by
            rw [ht, show (mkConnState v0).log ++ t = connectOkEntry v0 :: t from rfl,
              undoEntries_cons, if_neg (by simp [connectOkEntry, undoVerbs]), tnone t hmem]
          cases r with
          | ok u =>
              rw [runPlanBody_ok_noU ex plan _ s3 u hrs]
              exact hsplit
          | error e =>
              rw [runPlanBody_err_noU ex plan _ s3 e hrs]
              exact hsplit
  · -- mutating plan, normal return: one begin, one end, no cancel
    intro hu hok
    cases hex0 : ex 0 with
    | error e =>
        rw [runPlanSync_conn_err ex plan e hex0] at hok
        exact absurd hok (by simp)
    | ok v0 =>
      cases hex1 : ex 1 with
      | error e =>
          rw [runPlanSync_begin_err ex plan v0 e hu hex0 hex1] at hok
          exact absurd hok (by simp)
      | ok v1 =>
        rw [runPlanSync_begin ex plan v0 v1 hu hex0 hex1] at hok ⊢
        cases hrs : runSteps ex (mkBeginState v0 v1) plan with
        | mk r s3 =>
          obtain ⟨t, ht, hmem⟩ := runSteps_log_shape ex plan (mkBeginState v0 v1)
          rw [hrs] at ht
          simp only at ht
          cases r with
          | error e =>
              cases hc : runOne ex "undo_cancel_group" none s3 with
              | mk rc s4 =>
                cases rc with
                | ok cv =>
                    rw [runPlanBody_err_cancel_ok ex plan _ s3 s4 e cv hrs hc] at hok
                    exact absurd hok (by simp)
                | error ce =>
                    rw [runPlanBody_err_cancel_err ex plan _ s3 s4 e ce hrs hc] at hok
                    exact absurd hok (by simp)
          | ok u =>
              cases he : runOne ex "undo_end_group" none s3 with
              | mk re s4 =>
                cases re with
                | error e =>
                    cases hc : runOne ex "undo_cancel_group" none s4 with
                    | mk rc s5 =>
                      cases rc with
                      | ok cv =>
                          rw [runPlanBody_ok_end_err_cancel_ok ex plan _ s3 s4 s5 u e cv hrs he hc] at hok
                          exact absurd hok (by simp)
                      | error ce =>
                          rw [runPlanBody_ok_end_err_cancel_err ex plan _ s3 s4 s5 u e ce hrs he hc] at hok
                          exact absurd hok (by simp)
                | ok v =>
                    rw [runPlanBody_ok_end_ok ex plan _ s3 s4 u v hrs he]
                    have h4 := runOne_log ex "undo_end_group" none s3
                    rw [he] at h4
                    simp only at h4
                    have hlog : s4.log = [connectOkEntry v0, beginOkEntry v1] ++ t := by
                      rw [h4, ht]
                      rfl
                    have ht1 := tcount t hmem "undo_begin_group" (by simp [undoVerbs])
                    have ht2 := tcount t hmem "undo_end_group" (by simp [undoVerbs])
                    have ht3 := tcount t hmem "undo_cancel_group" (by simp [undoVerbs])
                    simp only []
                    rw [hlog]
                    refine ⟨?_, ?_, ?_⟩ <;>
                      simp [countCmd_append, countCmd_cons, countCmd_nil, ht1, ht2, ht3,
                        connectOkEntry, beginOkEntry, endOkEntry]
  · -- mutating plan, failing step loop: one begin, one cancel, no end
    intro hu v0 v1 e hex0 hex1 hfail
    rw [runPlanSync_begin ex plan v0 v1 hu hex0 hex1]
    cases hrs : runSteps ex (mkBeginState v0 v1) plan with
    | mk r s3 =>
      rw [hrs] at hfail
      simp only at hfail
      subst hfail
      obtain ⟨t, ht, hmem⟩ := runSteps_log_shape ex plan (mkBeginState v0 v1)
      rw [hrs] at ht
      simp only at ht
      have ht1 := tcount t hmem "undo_begin_group" (by simp [undoVerbs])
      have ht2 := tcount t hmem "undo_end_group" (by simp [undoVerbs])
      have ht3 := tcount t hmem "undo_cancel_group" (by simp [undoVerbs])
      cases hc : runOne ex "undo_cancel_group" none s3 with
      | mk rc s4 =>
        have h4 := runOne_log ex "undo_cancel_group" none s3
        rw [hc] at h4
        simp only at h4
        have hlog : s4.log = [connectOkEntry v0, beginOkEntry v1] ++ t := by
          rw [h4, ht]
          rfl
        cases rc with
        | ok cv =>
            rw [runPlanBody_err_cancel_ok ex plan _ s3 s4 e cv hrs hc]
            simp only []
            rw [hlog]
            refine ⟨?_, ?_, ?_⟩ <;>
              simp [countCmd_append, countCmd_cons, countCmd_nil, ht1, ht2, ht3,
                connectOkEntry, beginOkEntry, cancelOkEntry]
        | error ce =>
            rw [runPlanBody_err_cancel_err ex plan _ s3 s4 e ce hrs hc]
            simp only []
            rw [hlog]
            refine ⟨?_, ?_, ?_⟩ <;>
              simp [countCmd_append, countCmd_cons, countCmd_nil, ht1, ht2, ht3,
                connectOkEntry, beginOkEntry, cancelErrEntry]

/-- Oracle for the C1 counterexample and witness runs: invocation `n`
returns `vint n`. -/
def c1Ex : Nat → Except Err Val := fun n => .ok (.vint n)

/-- A plan whose single step invokes `undo_begin_group` directly as an
ordinary command.  It contains no mutating verb. -/
def c1Plan : List Step := [.structured "undo_begin_group" [] none]

/-- C1, counterexample to the claim as stated: `c1Plan` contains no verb
of the mutating set, every step succeeds, and yet its log contains an
`undo_begin_group` entry — because the undo bracket verbs are ordinary
registered commands that a plan may invoke directly. -/
theorem c1_counterexample :
    needUndo c1Plan = false ∧
    (runPlanSync c1Ex c1Plan).result = .ok () ∧
    countCmd (runPlanSync c1Ex c1Plan).log "undo_begin_group" = 1 :=
  ⟨by decide, rfl, by decide⟩

/-- A mutating single-step plan used by the C1 witness. -/
def c1wPlan : List Step := [.structured "create_objects" [] none]

/-- C1, witness: the amended theorem applied to a concrete successful
mutating plan. -/
theorem c1_theorem_witness :
    countCmd (runPlanSync c1Ex c1wPlan).log "undo_begin_group" = 1 ∧
    countCmd (runPlanSync c1Ex c1wPlan).log "undo_end_group" = 1 ∧
    countCmd (runPlanSync c1Ex c1wPlan).log "undo_cancel_group" = 0 :=
  (c1_theorem c1Ex c1wPlan (by decide)).2.1 (by decide) rfl

/-- C10.  For every plan on which `_run_plan_sync` returns normally,
`execute_plan` reports `steps_executed = len(log)`; the log counts the
implicit entries besides the user steps, so a successful plan of `n`
steps yields `n + 1` entries without a mutating verb (the
`connect_to_wwise` entry) and `n + 3` entries with one
(`connect_to_wwise`, `undo_begin_group`, `undo_end_group`). -/
theorem c10_theorem (ex : Nat → Except Err Val) (plan : List Step)
    (h : (runPlanSync ex plan).result = .ok ()) :
    executePlan ex plan =
      some ((runPlanSync ex plan).log.length, (runPlanSync ex plan).log) ∧
    (needUndo plan = false → (runPlanSync ex plan).log.length = plan.length + 1) ∧
    (needUndo plan = true → (runPlanSync ex plan).log.length = plan.length + 3) := by
  refine ⟨?_, ?_, ?_⟩
  · simp only [executePlan]
    rw [h]
  · intro hu
    cases hex0 : ex 0 with
    | error e =>
        rw [runPlanSync_conn_err ex plan e hex0] at h
        exact absurd h (by simp)
    | ok v0 =>
        rw [runPlanSync_conn ex plan v0 hex0, runPlanAfterConnect_noU ex plan _ hu] at h ⊢
        cases hrs : runSteps ex (mkConnState v0) plan with
        | mk r s3 =>
          cases r with
          | error e =>
              rw [runPlanBody_err_noU ex plan _ s3 e hrs] at h
              exact absurd h (by simp)
          | ok u =>
              rw [runPlanBody_ok_noU ex plan _ s3 u hrs]
              have hlen := runSteps_ok_log_length ex plan (mkConnState v0) (by rw [hrs])
              rw [hrs] at hlen
              simp only at hlen
              simp only [hlen, mkConnState]
              simp [Nat.add_comm]
  · intro hu
    cases hex0 : ex 0 with
    | error e =>
        rw [runPlanSync_conn_err ex plan e hex0] at h
        exact absurd h (by simp)
    | ok v0 =>
      cases hex1 : ex 1 with
      | error e =>
          rw [runPlanSync_begin_err ex plan v0 e hu hex0 hex1] at h
          exact absurd h (by simp)
      | ok v1 =>
        rw [runPlanSync_begin ex plan v0 v1 hu hex0 hex1] at h ⊢
        cases hrs : runSteps ex (mkBeginState v0 v1) plan with
        | mk r s3 =>
          cases r with
          | error e =>
              cases hc : runOne ex "undo_cancel_group" none s3 with
              | mk rc s4 =>
                cases rc with
                | ok cv =>
                    rw [runPlanBody_err_cancel_ok ex plan _ s3 s4 e cv hrs hc] at h
                    exact absurd h (by simp)
                | error ce =>
                    rw [runPlanBody_err_cancel_err ex plan _ s3 s4 e ce hrs hc] at h
                    exact absurd h (by simp)
          | ok u =>
              cases he : runOne ex "undo_end_group" none s3 with
              | mk re s4 =>
                cases re with
                | error e =>
                    cases hc : runOne ex "undo_cancel_group" none s4 with
                    | mk rc s5 =>
                      cases rc with
                      | ok cv =>
                          rw [runPlanBody_ok_end_err_cancel_ok ex plan _ s3 s4 s5 u e cv hrs he hc] at h
                          exact absurd h (by simp)
                      | error ce =>
                          rw [runPlanBody_ok_end_err_cancel_err ex plan _ s3 s4 s5 u e ce hrs he hc] at h
                          exact absurd h (by simp)
                | ok v =>
                    rw [runPlanBody_ok_end_ok ex plan _ s3 s4 u v hrs he]
                    have h4 := runOne_log ex "undo_end_group" none s3
                    rw [he] at h4
                    simp only at h4
                    have hlen := runSteps_ok_log_length ex plan (mkBeginState v0 v1) (by rw [hrs])
                    rw [hrs] at hlen
                    simp only at hlen
                    simp only [List.length_append, h4, hlen, mkBeginState]
                    simp
                    omega

/-- Oracle for the C10 witness run. -/
def c10Ex : Nat → Except Err Val := fun n => .ok (.vint n)

/-- A two-step plan containing a mutating verb, for the C10 witness. -/
def c10Plan : List Step :=
  [.structured "create_objects" [] none, .structured "get_project_info" [] none]

/-- C10, witness: the theorem applied to a concrete successful run of a
two-step mutating plan, whose log has 2 + 3 entries. -/
theorem c10_theorem_witness :
    (runPlanSync c10Ex c10Plan).log.length = c10Plan.length + 3 :=
  (c10_theorem c10Ex c10Plan rfl).2.2 (by decide)

/-! Lemmas about `$last` resolution. -/

theorem resolve_last (store : List (String × Val)) (v : Val)
    (h : lookupS store "last" = some v) :
    resolve store (.vstr "$last") = .ok v := by
  have heq : resolve store (.vstr "$last") =
      (match lookupS store "last" with
       | none => .error (.varNotFound "last")
       | some obj => .ok obj) := rfl
  rw [heq, h]

theorem resolveKvs_lookup (store : List (String × Val)) :
    ∀ (kvs kvs2 : List (String × Val)) (k : String) (w : Val),
      resolveKvs store kvs = .ok kvs2 → lookupS kvs k = some w →
      ∃ w2, resolve store w = .ok w2 ∧ lookupS kvs2 k = some w2 := by
  intro kvs
  induction kvs with
  | nil =>
      intro kvs2 k w _ hl
      exact absurd hl (by simp [lookupS])
  | cons p restk ih =>
      intro kvs2 k w hres hl
      obtain ⟨k1, v1⟩ := p
      simp only [resolveKvs] at hres
      cases h1 : resolve store v1 with
      | error e => rw [h1] at hres; exact absurd hres (by simp)
      | ok v2 =>
          rw [h1] at hres
          cases h2 : resolveKvs store restk with
          | error e => rw [h2] at hres; exact absurd hres (by simp)
          | ok rest2 =>
              rw [h2] at hres
              simp only [Except.ok.injEq] at hres
              subst hres
              simp only [lookupS] at hl ⊢
              by_cases hk : k1 = k
              · rw [if_pos hk] at hl ⊢
                obtain rfl : v1 = w := by injection hl
                exact ⟨v2, h1, rfl⟩
              · rw [if_neg hk] at hl ⊢
                exact ih rest2 k w h2 hl

/-- C4.  In any plan execution, for a structured step whose arguments
bind the literal `"$last"` to some key and that immediately follows
another step, if both steps execute (the log reaches two entries), then
the value substituted for `"$last"` — recorded in the second step's
logged kwargs — equals the `result` of the immediately preceding step's
log entry.  The second conjunct is the mechanism: after every successful
command invocation, `last` is bound in the per-plan store to that
invocation's result. -/
theorem c4_theorem (ex : Nat → Except Err Val) (s : RState) (stepA : Step)
    (cmdB : String) (argsB : List (String × Val)) (saveB : Option String)
    (rest : List Step) (kname : String)
    (hlog : s.log = [])
    (href : lookupS argsB kname = some (.vstr "$last"))
    (hlen : 2 ≤ (runSteps ex s (stepA :: .structured cmdB argsB saveB :: rest)).2.log.length) :
    (∃ v a b,
      (runSteps ex s (stepA :: .structured cmdB argsB saveB :: rest)).2.log.get? 0 = some a ∧
      a.result = some v ∧
      (runSteps ex s (stepA :: .structured cmdB argsB saveB :: rest)).2.log.get? 1 = some b ∧
      lookupS b.kwargs kname = some v) ∧
    (∀ (verb : String) (sa : Option String) (s1 s2 : RState) (v : Val),
      runOne ex verb sa s1 = (.ok v, s2) → lookupS s2.store "last" = some v) := by
  refine ⟨?_, fun verb sa s1 s2 v h => runOne_ok_store_last ex verb sa s1 s2 v h⟩
  cases hrA : resolveStep s.store stepA with
  | error e =>
      rw [runSteps_cons_resolve_err ex s stepA _ e hrA] at hlen
      simp only at hlen
      rw [hlog] at hlen
      exact absurd hlen (by simp)
  | ok qA =>
      obtain ⟨verbA, argsA2, kwA2, saA⟩ := qA
      cases hoA : runOne ex verbA saA s with
      | mk rA s1 =>
        have hl1 := runOne_log ex verbA saA s
        rw [hoA] at hl1
        simp only at hl1
        cases rA with
        | error e =>
            rw [runSteps_cons_run_err ex s s1 stepA _ verbA argsA2 kwA2 saA e hrA hoA] at hlen
            simp only at hlen
            rw [hl1, hlog] at hlen
            exact absurd hlen (by simp)
        | ok vA =>
            rw [runSteps_cons_ok ex s s1 stepA _ verbA argsA2 kwA2 saA vA hrA hoA] at hlen ⊢
            have hlast : lookupS s1.store "last" = some vA :=
              runOne_ok_store_last ex verbA saA s s1 vA hoA
            set entryA : LogEntry := { command := verbA, kwargs := kwA2, result := some vA } with hEA
            set sA : RState := { s1 with log := s1.log ++ [entryA] } with hSA
            have hsAlog : sA.log = [entryA] := by rw [hSA]; simp [hl1, hlog]
            have hsAstore : sA.store = s1.store := rfl
            cases hkv : resolveKvs sA.store argsB with
            | error e =>
                have hrB : resolveStep sA.store (.structured cmdB argsB saveB) = .error e := by
                  simp only [resolveStep, hkv]
                rw [runSteps_cons_resolve_err ex sA _ rest e hrB] at hlen
                simp only at hlen
                rw [hl1, hlog] at hlen
                exact absurd hlen (by simp)
            | ok kw2 =>
                have hrB : resolveStep sA.store (.structured cmdB argsB saveB) =
                    .ok (cmdB, [], kw2, saveB) := by
                  simp only [resolveStep, hkv]
                cases hoB : runOne ex cmdB saveB sA with
                | mk rB s2 =>
                  have hl2 := runOne_log ex cmdB saveB sA
                  rw [hoB] at hl2
                  simp only at hl2
                  cases rB with
                  | error e =>
                      rw [runSteps_cons_run_err ex sA s2 _ rest cmdB [] kw2 saveB e hrB hoB] at hlen
                      simp only at hlen
                      rw [hl2, hl1, hlog] at hlen
                      exact absurd hlen (by simp)
                  | ok vB =>
                      rw [runSteps_cons_ok ex sA s2 _ rest cmdB [] kw2 saveB vB hrB hoB]
                      set entryB : LogEntry := { command := cmdB, kwargs := kw2, result := some vB } with hEB
                      obtain ⟨t, ht, _⟩ :=
                        runSteps_log_shape ex rest { s2 with log := s2.log ++ [entryB] }
                      rw [ht]
                      simp only [hl2, hl1, hlog]
                      obtain ⟨w2, hw2, hwl⟩ :=
                        resolveKvs_lookup sA.store argsB kw2 kname (.vstr "$last") hkv href
                      rw [hsAstore, resolve_last s1.store vA hlast] at hw2
                      obtain rfl : vA = w2 := by injection hw2
                      exact ⟨vA, entryA, entryB, by simp, by rw [hEA], by simp, by rw [hEB]; exact hwl⟩

/-- Oracle for the C4 witness run. -/
def c4Ex : Nat → Except Err Val := fun n => .ok (.vint n)

/-- C4, witness: a concrete two-step plan fragment whose second step
passes `"$last"`; the substituted value equals the first step's logged
result. -/
theorem c4_theorem_witness :
    ∃ v a b,
      (runSteps c4Ex ⟨[], [], [], 0⟩
        [.structured "create_objects" [] none,
         .structured "get_project_info" [("p", .vstr "$last")] none]).2.log.get? 0 = some a ∧
      a.result = some v ∧
      (runSteps c4Ex ⟨[], [], [], 0⟩
        [.structured "create_objects" [] none,
         .structured "get_project_info" [("p", .vstr "$last")] none]).2.log.get? 1 = some b ∧
      lookupS b.kwargs "p" = some v :=
  (c4_theorem c4Ex ⟨[], [], [], 0⟩ (.structured "create_objects" [] none)
    "get_project_info" [("p", .vstr "$last")] none [] "p" rfl rfl (by decide)).1

/-- Oracle for the C5 runs: every invocation succeeds. -/
def c5Ex : Nat → Except Err Val := fun _ => .ok .vnull

/-- A step whose arguments contain, nested inside a list, a reference to
the unbound variable `$nope`. -/
def c5Step : Step := .structured "waapi_get_schema" [("x", .vlist [.vstr "$nope"])] none

/-- C5, counterexample to the claim as stated: the plan `[c5Step]` fails
with the variable-not-found error, but a call for the plan — the
implicit `connect_to_wwise` — has already been issued (the trace is
nonempty), so the failure does not happen "before any call for that
plan is issued". -/
theorem c5_counterexample :
    (runPlanSync c5Ex [c5Step]).result = .error (.varNotFound "nope") ∧
    (runPlanSync c5Ex [c5Step]).trace = ["connect_to_wwise"] :=
  ⟨rfl, rfl⟩

/-- C5 (amended).  A step whose argument resolution hits an unknown
variable fails with that `KeyError` before any call for that step is
issued: the step loop returns the error with the runner state untouched
— no log entry, no trace entry, no oracle consumption, hence no enqueue
for the failing step.  (Calls of earlier steps and the implicit
`connect_to_wwise` / `undo_begin_group` invocations have already been
issued at that point, and in undo mode a cancel follows.) -/
theorem c5_theorem (ex : Nat → Except Err Val) (s : RState) (step : Step)
    (rest : List Step) (n : String)
    (h : resolveStep s.store step = .error (.varNotFound n)) :
    runSteps ex s (step :: rest) = (.error (.varNotFound n), s) :=
  runSteps_cons_resolve_err ex s step rest _ h

/-- C5, witness: the amended theorem applied to the concrete failing
step. -/
theorem c5_theorem_witness :
    runSteps c5Ex ⟨[], [], [], 0⟩ [c5Step] = (.error (.varNotFound "nope"), ⟨[], [], [], 0⟩) :=
  c5_theorem c5Ex ⟨[], [], [], 0⟩ c5Step [] "nope" rfl

/-! Queue bound lemmas for the timed priority queue. -/

theorem putCatch_inv {α : Type} (s : TimedPQ α) (d : Int) (r : α) :
    (s.putCatch d r).maxSize = s.maxSize ∧
    (s.pq.length ≤ s.maxSize → (s.putCatch d r).pq.length ≤ s.maxSize) := by
  simp only [TimedPQ.putCatch, TimedPQ.put]
  by_cases hge : s.pq.length ≥ s.maxSize
  · rw [if_pos hge]
    exact ⟨rfl, fun h => h⟩
  · rw [if_neg hge]
    refine ⟨rfl, fun _ => ?_⟩
    simp only [List.length_append, List.length_cons, List.length_nil]
    omega

theorem putSeq_inv {α : Type} : ∀ (ops : List (Int × α)) (s0 : TimedPQ α),
    s0.pq.length ≤ s0.maxSize →
    (s0.putSeq ops).pq.length ≤ s0.maxSize ∧ (s0.putSeq ops).maxSize = s0.maxSize := by
  intro ops
  induction ops with
  | nil => intro s0 h; exact ⟨h, rfl⟩
  | cons op rest ih =>
      intro s0 h
      have hstep := putCatch_inv s0 op.1 op.2
      have hnext := ih (s0.putCatch op.1 op.2) (by rw [hstep.1]; exact hstep.2 h)
      simp only [TimedPQ.putSeq, List.foldl_cons] at hnext ⊢
      refine ⟨?_, ?_⟩
      · have := hnext.1
        rw [hstep.1] at this
        exact this
      · rw [hnext.2, hstep.1]

/-- C3.  When a timed priority queue is exactly at its configured
maximum, `put` raises `WaapiQueueFullError` carrying the current size
and the maximum; the request is not enqueued (a caller that catches the
error sees the queue unchanged); and under any sequence of `put`
attempts starting within the bound, the queue size never exceeds the
maximum. -/
theorem c3_theorem {α : Type} (s : TimedPQ α) (due : Int) (req : α)
    (h : s.pq.length = s.maxSize) :
    s.put due req = .error ⟨s.maxSize, s.maxSize⟩ ∧
    s.putCatch due req = s ∧
    (∀ (s0 : TimedPQ α) (ops : List (Int × α)),
      s0.pq.length ≤ s0.maxSize →
      (s0.putSeq ops).pq.length ≤ s0.maxSize ∧ (s0.putSeq ops).maxSize = s0.maxSize) := by
  have hput : s.put due req = .error ⟨s.maxSize, s.maxSize⟩ := by
    simp only [TimedPQ.put]
    rw [if_pos (le_of_eq h.symm), h]
  refine ⟨hput, ?_, fun s0 ops h0 => putSeq_inv ops s0 h0⟩
  simp only [TimedPQ.putCatch, hput]

/-- C3, witness: a unit-payload queue of capacity 1 holding one entry
rejects the next put with `QueueFull(1, 1)` and is left unchanged. -/
theorem c3_theorem_witness :
    TimedPQ.put ⟨[⟨0, 0, ()⟩], 1, 1⟩ 5 () = .error ⟨1, 1⟩ ∧
    TimedPQ.putCatch ⟨[⟨0, 0, ()⟩], 1, 1⟩ 5 () = ⟨[⟨0, 0, ()⟩], 1, 1⟩ :=
  have h := c3_theorem (α := Unit) ⟨[⟨0, 0, ()⟩], 1, 1⟩ 5 () rfl
  ⟨h.1, h.2.1⟩

/-- C6.  Evidence for the divergence: the event queue created by the
subscribe branch is `queue.Queue()` with the default `maxsize = 0`,
which Python treats as infinite capacity.  Hence the `_on_event`
callback appends every incoming event — after any sequence of events
the buffer holds all of them, exceeding any intended bound, and no
event is ever dropped.  (The `except queue.Full: pass` handler is dead
code on an unbounded queue; `onEvent` is a total function, so no
exception reaches the RPC callback thread — that half of the claim
holds.) -/
theorem c6_theorem :
    subscribeEventQueue.maxsize = 0 ∧
    ∀ (events : List Val),
      (events.foldl onEvent subscribeEventQueue).items = events := by
  refine ⟨rfl, ?_⟩
  have key : ∀ (events : List Val) (acc : List Val),
      (events.foldl onEvent ⟨0, acc⟩).items = acc ++ events := by
    intro events
    induction events with
    | nil => intro acc; simp
    | cons e rest ih =>
        intro acc
        have hone : onEvent ⟨0, acc⟩ e = ⟨0, acc ++ [e]⟩ := by
          simp [onEvent, PyQueue.putNowait]
        simp only [List.foldl_cons, hone]
        rw [ih]
        simp
  intro events
  simpa [subscribeEventQueue] using key events []

/-- Registry with one subscription holding one buffered event, for C7. -/
def c7Subs : List (String × PyQueue) := [("sub", ⟨0, [.vstr "e1"]⟩)]

/-- C7.  Evidence for the divergence: draining with `clear = false`
still removes the returned events from the buffer — the `clear`
parameter is never consulted, so the buffer is not left unchanged.  The
call returns the buffered event and afterwards the subscription's
buffer is empty. -/
theorem c7_theorem :
    get_subscription_events c7Subs "sub" none false =
      ([.vstr "e1"], [("sub", ⟨0, []⟩)]) ∧
    (lookupQ c7Subs "sub").map PyQueue.items = some [.vstr "e1"] ∧
    (lookupQ (get_subscription_events c7Subs "sub" none false).2 "sub").map PyQueue.items =
      some [] :=
  ⟨rfl, rfl, rfl⟩

/-- Session state of a callback running on the dispatcher's own consumer
thread, with the session otherwise healthy. -/
def c8State : SessState := ⟨false, true, true, true⟩

/-- C8, counterexample to the claim as stated: an invocation from the
dispatcher's consumer thread with a negative `due_in` fails with the
`ValueError` of the argument check, not with the `RuntimeError`
programmer error — the claim's error kind is wrong for such inputs
(nothing is enqueued either way). -/
theorem c8_counterexample :
    c8State.onDispatcherThread = true ∧
    waapi_call c8State 0 0 "u" (some (-1)) true = .error .valueErrNegativeDueIn ∧
    CallErr.valueErrNegativeDueIn ≠ CallErr.runtimeErrDispatcherThread :=
  ⟨rfl, rfl, by decide⟩

/-- C8 (amended).  Every invocation of `waapi_call` from the
dispatcher's consumer thread fails and enqueues nothing into the timed
priority queue; whenever the argument check and the session guards pass
(`due_in` non-negative, not reconnecting, connected, dispatcher alive),
the failure is the `RuntimeError` programmer error of the re-entrancy
guard. -/
theorem c8_theorem (st : SessState) (pq : TimedPQ EnqReq) (nowCall nowEnq : Int)
    (uri : String) (due_in : Option Int) (wait : Bool)
    (ht : st.onDispatcherThread = true) :
    (∃ e, (waapi_call_enqueue st pq nowCall nowEnq uri due_in wait).1 = .error e) ∧
    (waapi_call_enqueue st pq nowCall nowEnq uri due_in wait).2 = pq ∧
    (negDue due_in = false → st.reconnecting = false → st.connected = true →
      st.dispatcherAlive = true →
      (waapi_call_enqueue st pq nowCall nowEnq uri due_in wait).1 =
        .error .runtimeErrDispatcherThread) := by
  have herr : ∃ e, waapi_call st nowCall nowEnq uri due_in wait = .error e := by
    simp only [waapi_call]
    split
    · exact ⟨_, rfl⟩
    · split
      · exact ⟨_, rfl⟩
      · split
        · exact ⟨_, rfl⟩
        · split
          · exact ⟨_, rfl⟩
          · exact ⟨_, rfl⟩
  obtain ⟨e, he⟩ := herr
  refine ⟨⟨e, ?_⟩, ?_, ?_⟩
  · simp [waapi_call_enqueue, he]
  · simp [waapi_call_enqueue, he]
  · intro h1 h2 h3 h4
    have hrt : waapi_call st nowCall nowEnq uri due_in wait =
        .error .runtimeErrDispatcherThread := by
      simp [waapi_call, h1, h2, h3, h4, ht]
    simp [waapi_call_enqueue, hrt]

/-- C8, witness: a well-formed call from the consumer thread fails with
the programmer error and the queue stays empty. -/
theorem c8_theorem_witness :
    (waapi_call_enqueue c8State (TimedPQ.empty EnqReq 4) 0 0 "u" (some 1) true).1 =
      .error .runtimeErrDispatcherThread ∧
    (waapi_call_enqueue c8State (TimedPQ.empty EnqReq 4) 0 0 "u" (some 1) true).2 =
      TimedPQ.empty EnqReq 4 :=
  have h := c8_theorem c8State (TimedPQ.empty EnqReq 4) 0 0 "u" (some 1) true rfl
  ⟨h.2.2 rfl rfl rfl rfl, h.2.1⟩

/-- Healthy session state seen from an ordinary (non-consumer) thread. -/
def c9State : SessState := ⟨false, true, true, false⟩

/-- C9.  With the session guards passing, `due_in = 0` behaves exactly
like `due_in = None`: the scheduling expression
`(time.monotonic() + due_in) if due_in else None` treats `0` as falsy,
`due_at` stays unset, and `enqueue` assigns its own `time.monotonic()`
(the enqueue-time clock `nowEnq`) as `due_at`.  Only a strictly positive
`due_in` produces `due_at = nowCall + due_in` in the future. -/
theorem c9_theorem (st : SessState) (nowCall nowEnq : Int) (uri : String) (wait : Bool)
    (hr : st.reconnecting = false) (hc : st.connected = true)
    (ha : st.dispatcherAlive = true) (hd : st.onDispatcherThread = false) :
    waapi_call st nowCall nowEnq uri (some 0) wait =
      waapi_call st nowCall nowEnq uri none wait ∧
    waapi_call st nowCall nowEnq uri none wait =
      .ok { due_at := nowEnq, uri := uri, wantReply := wait } ∧
    (∀ d : Int, 0 < d →
      waapi_call st nowCall nowEnq uri (some d) wait =
        .ok { due_at := nowCall + d, uri := uri, wantReply := wait }) := by
  refine ⟨?_, ?_, ?_⟩
  · simp [waapi_call, negDue, hr, hc, ha, hd]
  · simp [waapi_call, negDue, hr, hc, ha, hd]
  · intro d hd0
    have h1 : negDue (some d) = false := by
      simp only [negDue, decide_eq_false_iff_not]
      omega
    have h2 : d ≠ 0 := by omega
    simp [waapi_call, h1, hr, hc, ha, hd, h2]

/-- C9, witness: at concrete clocks, `due_in = 0` and `due_in = None`
both enqueue with `due_at` equal to the enqueue-time clock, while
`due_in = 5` schedules five units after the call-time clock. -/
theorem c9_theorem_witness :
    waapi_call c9State 10 11 "u" (some 0) true =
      .ok { due_at := 11, uri := "u", wantReply := true } ∧
    waapi_call c9State 10 11 "u" (some 5) true =
      .ok { due_at := 15, uri := "u", wantReply := true } :=
  have h := c9_theorem c9State 10 11 "u" true rfl rfl rfl rfl
  ⟨h.1.trans h.2.1, h.2.2 5 (by norm_num)⟩

/-! Ordering machinery for the timed priority queue (claim C2). -/

/-- The `(due_at, seq)` comparison key of a queued entry. -/
def entryKey {α : Type} (e : PQEntry α) : Int × Nat := (e.due, e.seq)

/-- Lexicographic non-strict order on `(due_at, seq)` keys. -/
def keyLe (a b : Int × Nat) : Prop :=
  a.1 < b.1 ∨ (a.1 = b.1 ∧ a.2 ≤ b.2)

theorem keyLeB_iff {α : Type} (a b : PQEntry α) :
    keyLeB a b = true ↔ keyLe (entryKey a) (entryKey b) := by
  simp [keyLeB, keyLe, entryKey]

theorem keyLe_trans (a b c : Int × Nat) (h1 : keyLe a b) (h2 : keyLe b c) :
    keyLe a c := by
  rcases h1 with h1 | ⟨h1e, h1s⟩ <;> rcases h2 with h2 | ⟨h2e, h2s⟩
  · exact Or.inl (by omega)
  · exact Or.inl (by omega)
  · exact Or.inl (by omega)
  · exact Or.inr ⟨by omega, by omega⟩

theorem keyLe_of_not_keyLe (a b : Int × Nat) (h : ¬ keyLe a b) : keyLe b a := by
  unfold keyLe at *
  obtain ⟨hA, hB⟩ := not_or.mp h
  by_cases h1 : b.1 < a.1
  · exact Or.inl h1
  · have he : a.1 = b.1 := by omega
    have hs : ¬ a.2 ≤ b.2 := fun hh => hB ⟨he, hh⟩
    exact Or.inr ⟨he.symm, by omega⟩

theorem keyLt_of_keyLe_ne (a b : Int × Nat) (h : keyLe a b) (hne : a.2 ≠ b.2) :
    keyLt a b := by
  unfold keyLe keyLt at *
  rcases h with h | ⟨he, hs⟩
  · exact Or.inl h
  · exact Or.inr ⟨he, by omega⟩

/-- The entries produced by enqueueing the due times `ds` in order
starting at sequence number `k`: the `i`-th put receives `seq = k + i`. -/
def buildEntries (k : Nat) : List Int → List (PQEntry Unit)
  | [] => []
  | d :: rest => ⟨d, k, ()⟩ :: buildEntries (k + 1) rest

theorem buildEntries_length (ds : List Int) :
    ∀ k, (buildEntries k ds).length = ds.length := by
  induction ds with
  | nil => intro k; rfl
  | cons d rest ih => intro k; simp [buildEntries, ih]

theorem buildEntries_due (ds : List Int) :
    ∀ (k : Nat) (e : PQEntry Unit), e ∈ buildEntries k ds → e.due ∈ ds := by
  induction ds with
  | nil => intro k e he; exact absurd he (by simp [buildEntries])
  | cons d rest ih =>
      intro k e he
      simp only [buildEntries, List.mem_cons] at he
      rcases he with he | he
      · rw [he]; exact List.mem_cons_self _ _
      · exact List.mem_cons_of_mem _ (ih (k + 1) e he)

theorem buildEntries_seqs (ds : List Int) :
    ∀ k, (buildEntries k ds).map (fun e => e.seq) = List.range' k ds.length := by
  induction ds with
  | nil => intro k; rfl
  | cons d rest ih =>
      intro k
      simp [buildEntries, List.range', ih]

theorem putSeq_pq (ds : List Int) : ∀ (s : TimedPQ Unit),
    s.pq.length + ds.length ≤ s.maxSize →
    (s.putSeq (ds.map (fun d => (d, ())))).pq = s.pq ++ buildEntries s.seq ds := by
  induction ds with
  | nil => intro s h; simp [TimedPQ.putSeq, buildEntries]
  | cons d rest ih =>
      intro s h
      have hlt : s.pq.length < s.maxSize := by
        simp only [List.length_cons] at h
        omega
      have hput : s.putCatch d () = ⟨s.pq ++ [⟨d, s.seq, ()⟩], s.seq + 1, s.maxSize⟩ := by
        simp only [TimedPQ.putCatch, TimedPQ.put, if_neg (Nat.not_le.mpr hlt)]
      have hstep : TimedPQ.putSeq s ((d, ()) :: rest.map (fun d => (d, ()))) =
          TimedPQ.putSeq (s.putCatch d ()) (rest.map (fun d => (d, ()))) := rfl
      have hrec := ih ⟨s.pq ++ [⟨d, s.seq, ()⟩], s.seq + 1, s.maxSize⟩
        (by simp only [List.length_append, List.length_cons, List.length_nil] at *; omega)
      simp only [List.map_cons, hstep, hput, hrec, buildEntries]
      simp

theorem selectMin_ne_none {α : Type} (x : PQEntry α) (xs : List (PQEntry α)) :
    selectMin (x :: xs) ≠ none := by
  simp only [selectMin]
  cases h : selectMin xs with
  | none => simp
  | some p =>
      obtain ⟨m, rest⟩ := p
      by_cases hk : keyLeB x m = true <;> simp [hk]

theorem selectMin_perm {α : Type} : ∀ (l : List (PQEntry α)) (m : PQEntry α)
    (rest : List (PQEntry α)), selectMin l = some (m, rest) → l.Perm (m :: rest) := by
  intro l
  induction l with
  | nil => intro m rest h; exact absurd h (by simp [selectMin])
  | cons x xs ih =>
      intro m rest h
      simp only [selectMin] at h
      cases hs : selectMin xs with
      | none =>
          simp only [hs] at h
          simp only [Option.some.injEq, Prod.mk.injEq] at h
          obtain ⟨rfl, rfl⟩ := h
          have hx : xs = [] := by
            cases xs with
            | nil => rfl
            | cons a b => exact absurd hs (selectMin_ne_none a b)
          rw [hx]
      | some p =>
          obtain ⟨m0, rest0⟩ := p
          simp only [hs] at h
          have hperm := ih m0 rest0 hs
          by_cases hk : keyLeB x m0 = true
          · rw [if_pos hk] at h
            simp only [Option.some.injEq, Prod.mk.injEq] at h
            obtain ⟨rfl, rfl⟩ := h
            exact List.Perm.refl _
          · rw [if_neg hk] at h
            simp only [Option.some.injEq, Prod.mk.injEq] at h
            obtain ⟨rfl, rfl⟩ := h
            exact (hperm.cons x).trans (List.Perm.swap m0 x rest0)

theorem selectMin_min {α : Type} : ∀ (l : List (PQEntry α)) (m : PQEntry α)
    (rest : List (PQEntry α)), selectMin l = some (m, rest) →
    ∀ e ∈ rest, keyLe (entryKey m) (entryKey e) := by
  intro l
  induction l with
  | nil => intro m rest h; exact absurd h (by simp [selectMin])
  | cons x xs ih =>
      intro m rest h
      simp only [selectMin] at h
      cases hs : selectMin xs with
      | none =>
          simp only [hs] at h
          simp only [Option.some.injEq, Prod.mk.injEq] at h
          obtain ⟨rfl, rfl⟩ := h
          intro e he
          exact absurd he (by simp)
      | some p =>
          obtain ⟨m0, rest0⟩ := p
          simp only [hs] at h
          have hperm := selectMin_perm xs m0 rest0 hs
          have hmin := ih m0 rest0 hs
          by_cases hk : keyLeB x m0 = true
          · rw [if_pos hk] at h
            simp only [Option.some.injEq, Prod.mk.injEq] at h
            obtain ⟨rfl, rfl⟩ := h
            intro e he
            have hxm : keyLe (entryKey x) (entryKey m0) := (keyLeB_iff x m0).mp hk
            have hmem : e ∈ m0 :: rest0 := hperm.mem_iff.mp he
            rcases List.mem_cons.mp hmem with rfl | hre
            · exact hxm
            · exact keyLe_trans _ _ _ hxm (hmin e hre)
          · rw [if_neg hk] at h
            simp only [Option.some.injEq, Prod.mk.injEq] at h
            obtain ⟨rfl, rfl⟩ := h
            intro e he
            rcases List.mem_cons.mp he with rfl | hre
            · exact keyLe_of_not_keyLe _ _ (fun hh => hk ((keyLeB_iff e m0).mpr hh))
            · exact hmin e hre

theorem getNextDue_none {α : Type} (now : Int) (s : TimedPQ α)
    (h : selectMin s.pq = none) : getNextDue now s = (none, s) := by
  simp [getNextDue, h]

theorem getNextDue_pop {α : Type} (now : Int) (s : TimedPQ α) (m : PQEntry α)
    (rest : List (PQEntry α)) (h : selectMin s.pq = some (m, rest))
    (hd : m.due ≤ now) : getNextDue now s = (some m, { s with pq := rest }) := by
  simp [getNextDue, h, hd]

theorem drainAt_succ_pop {α : Type} (now : Int) (f : Nat) (s s1 : TimedPQ α)
    (m : PQEntry α) (h : getNextDue now s = (some m, s1)) :
    drainAt now (f + 1) s = m :: drainAt now f s1 := by
  simp [drainAt, h]

theorem drainAt_succ_stop {α : Type} (now : Int) (f : Nat) (s s1 : TimedPQ α)
    (h : getNextDue now s = (none, s1)) : drainAt now (f + 1) s = [] := by
  simp [drainAt, h]

theorem drainAt_sub {α : Type} (now : Int) : ∀ (fuel : Nat) (s : TimedPQ α),
    ∀ e ∈ drainAt now fuel s, e ∈ s.pq := by
  intro fuel
  induction fuel with
  | zero => intro s e he; exact absurd he (by simp [drainAt])
  | succ f ihf =>
      intro s e he
      cases hs : selectMin s.pq with
      | none =>
          rw [drainAt_succ_stop now f s s (getNextDue_none now s hs)] at he
          exact absurd he (by simp)
      | some p =>
          obtain ⟨m, rest⟩ := p
          have hperm := selectMin_perm s.pq m rest hs
          by_cases hd : m.due ≤ now
          · rw [drainAt_succ_pop now f s _ m (getNextDue_pop now s m rest hs hd)] at he
            rcases List.mem_cons.mp he with rfl | hre
            · exact hperm.mem_iff.mpr (List.mem_cons_self _ _)
            · have := ihf { s with pq := rest } e hre
              exact hperm.mem_iff.mpr (List.mem_cons_of_mem _ this)
          · have : getNextDue now s = (none, s) := by
              simp [getNextDue, hs, hd]
            rw [drainAt_succ_stop now f s s this] at he
            exact absurd he (by simp)

theorem drainAt_sorted {α : Type} (now : Int) : ∀ (fuel : Nat) (s : TimedPQ α),
    (∀ e ∈ s.pq, e.due ≤ now) →
    ((s.pq.map (fun e => e.seq)).Nodup) →
    List.Pairwise (fun a b => keyLt (entryKey a) (entryKey b)) (drainAt now fuel s) ∧
    (drainAt now fuel s).length = min fuel s.pq.length := by
  intro fuel
  induction fuel with
  | zero => intro s _ _; simp [drainAt]
  | succ f ihf =>
      intro s hdue hnd
      cases hs : selectMin s.pq with
      | none =>
          have hnil : s.pq = [] := by
            cases hq : s.pq with
            | nil => rfl
            | cons a b => rw [hq] at hs; exact absurd hs (selectMin_ne_none a b)
          rw [drainAt_succ_stop now f s s (getNextDue_none now s hs)]
          simp [hnil]
      | some p =>
          obtain ⟨m, rest⟩ := p
          have hperm := selectMin_perm s.pq m rest hs
          have hmem : m ∈ s.pq := hperm.mem_iff.mpr (List.mem_cons_self _ _)
          have hd : m.due ≤ now := hdue m hmem
          rw [drainAt_succ_pop now f s _ m (getNextDue_pop now s m rest hs hd)]
          have hdue2 : ∀ e ∈ ({ s with pq := rest } : TimedPQ α).pq, e.due ≤ now := by
            intro e he
            exact hdue e (hperm.mem_iff.mpr (List.mem_cons_of_mem _ he))
          have hmapperm : (s.pq.map (fun e => e.seq)).Perm
              (m.seq :: rest.map (fun e => e.seq)) := hperm.map _
          have hnd2 : (m.seq :: rest.map (fun e => e.seq)).Nodup :=
            (hmapperm.nodup_iff).mp hnd
          have hnotin : m.seq ∉ rest.map (fun e => e.seq) := (List.nodup_cons.mp hnd2).1
          have hndrest : (rest.map (fun e => e.seq)).Nodup := (List.nodup_cons.mp hnd2).2
          obtain ⟨hpw, hlen⟩ := ihf { s with pq := rest } hdue2 hndrest
          constructor
          · refine List.Pairwise.cons ?_ hpw
            intro e he
            have hein : e ∈ rest := drainAt_sub now f { s with pq := rest } e he
            have hle := selectMin_min s.pq m rest hs e hein
            have hne : m.seq ≠ e.seq := by
              intro hh
              exact hnotin (hh ▸ List.mem_map_of_mem (fun e => e.seq) hein)
            exact keyLt_of_keyLe_ne _ _ hle hne
          · simp only [List.length_cons, hlen]
            have hlength : s.pq.length = rest.length + 1 := by
              have := hperm.length_eq
              simpa using this
            rw [hlength]
            omega

/-- The queue obtained by enqueueing the due times `ds` in order into a
fresh `_TimedPQ` with capacity `ds.length`. -/
def c2State (ds : List Int) : TimedPQ Unit :=
  (TimedPQ.empty Unit ds.length).putSeq (ds.map (fun d => (d, ())))

/-- The sequence of requests popped by the consumer once every enqueued
request is due. -/
def c2Drain (ds : List Int) (now : Int) : List (PQEntry Unit) :=
  drainAt now ds.length (c2State ds)

/-- C2.  For any sequence of puts: the `i`-th put is stored with
`seq = i`, so `seq` strictly increases in enqueue order (first
conjunct); consecutive pops return requests in strictly increasing
lexicographic `(due_at, seq)` order (second conjunct); every enqueued
request is popped (third conjunct); and pops with equal `due_at` come
in increasing `seq`, i.e. enqueue, order (fourth conjunct). -/
theorem c2_theorem (ds : List Int) (now : Int) (h : ∀ d ∈ ds, d ≤ now) :
    (c2State ds).pq = buildEntries 0 ds ∧
    List.Pairwise (fun a b => keyLt (entryKey a) (entryKey b)) (c2Drain ds now) ∧
    (c2Drain ds now).length = ds.length ∧
    (∀ (i j : Nat) (a b : PQEntry Unit), i < j →
      (c2Drain ds now).get? i = some a → (c2Drain ds now).get? j = some b →
      a.due = b.due → a.seq < b.seq) := by
  have hpq : (c2State ds).pq = buildEntries 0 ds := by
    have := putSeq_pq ds (TimedPQ.empty Unit ds.length) (by simp [TimedPQ.empty])
    simpa [c2State, TimedPQ.empty] using this
  have hdue : ∀ e ∈ (c2State ds).pq, e.due ≤ now := by
    rw [hpq]
    intro e he
    exact h e.due (buildEntries_due ds 0 e he)
  have hnd : ((c2State ds).pq.map (fun e => e.seq)).Nodup := by
    rw [hpq, buildEntries_seqs]
    exact List.nodup_range' _ _
  have hplen : (c2State ds).pq.length = ds.length := by
    rw [hpq, buildEntries_length]
  obtain ⟨hpw, hlen⟩ := drainAt_sorted now ds.length (c2State ds) hdue hnd
  have hpw2 : List.Pairwise (fun a b => keyLt (entryKey a) (entryKey b)) (c2Drain ds now) := hpw
  have hlen2 : (c2Drain ds now).length = ds.length := by
    have := hlen
    rw [hplen] at this
    simpa [c2Drain] using this
  refine ⟨hpq, hpw2, hlen2, ?_⟩
  intro i j a b hij hga hgb heq
  obtain ⟨hi, hgai⟩ := List.get?_eq_some.mp hga
  obtain ⟨hj, hgbj⟩ := List.get?_eq_some.mp hgb
  have hrel := List.pairwise_iff_get.mp hpw2 ⟨i, hi⟩ ⟨j, hj⟩ hij
  rw [hgai, hgbj] at hrel
  unfold keyLt entryKey at hrel
  rcases hrel with hlt | hrel
  · rw [heq] at hlt
    exact absurd hlt (lt_irrefl _)
  · exact hrel.2

/-- C2, witness: three puts with due times `[5, 3, 5]` pop as
`(3, seq 1)`, `(5, seq 0)`, `(5, seq 2)` — lexicographic order, with the
two `due_at = 5` requests in enqueue order. -/
theorem c2_theorem_witness :
    (c2State [5, 3, 5]).pq = buildEntries 0 [5, 3, 5] ∧
    List.Pairwise (fun a b => keyLt (entryKey a) (entryKey b)) (c2Drain [5, 3, 5] 10) ∧
    (c2Drain [5, 3, 5] 10).length = 3 :=
  have h := c2_theorem [5, 3, 5] 10 (by decide)
  ⟨h.1, h.2.1, h.2.2.1⟩

end WwiseMCP
